import Mathlib

/-!
Verification of the FaceInsight core against its design specification.

The definitions below are a shallow embedding of the Python source:

* `face_processor.py` — `FaceProcessor.compare_faces`, `FaceProcessor.find_match`
  (the hybrid top-K matching engine), embedded over `ℚ`;
* `database.py` — `Database.auto_train_face`, `Database.delete_face_image`,
  `Database.add_recognition_history`, `Database.undo_recognition`,
  `Database.delete_person`, with the SQLite tables as Lean lists and the
  file system as a `Finset String` of existing paths;
* `inbox_monitor.py` — `InboxHandler.on_created` and
  `InboxHandler._is_file_complete`, with the two size probes as
  `Option Nat` snapshots and the processing callback as an abstract
  outcome (normal return or raised fault).

Theorems `C1_*` .. `C10_*` settle the corresponding specification claims.
-/

namespace FaceInsight

/-! ### MatchEngine — `FaceProcessor.find_match` (face_processor.py)

`Database.get_all_embeddings()` returns rows `(img_id, name, nickname,
embedding)`; embeddings are modelled as `List ℚ` and similarity as the exact
dot product. -/

/-- One row of `Database.get_all_embeddings()`. -/
structure DBEmbedding where
  imgId : Nat
  name : String
  nickname : Option String
  embedding : List ℚ
deriving DecidableEq

/-- `np.dot` on two same-length flat vectors (callers guard the lengths). -/
def dotProd : List ℚ → List ℚ → ℚ
  | a :: as, b :: bs => a * b + dotProd as bs
  | _, _ => 0

/-- `FaceProcessor.compare_faces`: returns 0.0 on a length mismatch,
otherwise the dot product of the two embeddings. -/
def compare_faces (e1 e2 : List ℚ) : ℚ :=
  if e1.length = e2.length then dotProd e1 e2 else 0

/-- The gallery rows that survive the dimension check in `find_match`
(`db_embedding.shape[0] != test_embedding.shape[0]` → `continue`). -/
def survivors (test : List ℚ) (db : List DBEmbedding) : List DBEmbedding :=
  db.filter (fun e => e.embedding.length = test.length)

/-- Distinct elements in order of first occurrence: the iteration order of
the insertion-ordered Python dict `person_data`. -/
def firstOccur : List String → List String
  | [] => []
  | x :: xs => x :: (firstOccur xs).filter (fun y => y ≠ x)

/-- The keys of `person_data`, in insertion order. -/
def personNames (test : List ℚ) (db : List DBEmbedding) : List String :=
  firstOccur ((survivors test db).map (fun e => e.name))

/-- `person_data[name]['scores']`: the `(score, img_id)` pairs accumulated
for one person, in gallery order. -/
def personScores (test : List ℚ) (db : List DBEmbedding) (name : String) :
    List (ℚ × Nat) :=
  ((survivors test db).filter (fun e => e.name = name)).map
    (fun e => (compare_faces test e.embedding, e.imgId))

/-- `person_data[name]['nickname']`: the nickname of the first surviving
gallery row for that person. -/
def nicknameOf (test : List ℚ) (db : List DBEmbedding) (name : String) :
    Option String :=
  match ((survivors test db).filter (fun e => e.name = name)).head? with
  | some e => e.nickname
  | none => none

/-- `sorted(scores_with_ids, key=lambda x: x[0], reverse=True)`: stable sort,
descending by score. -/
def sortDesc (l : List (ℚ × Nat)) : List (ℚ × Nat) :=
  List.insertionSort (fun a b => b.1 ≤ a.1) l

instance sortDescRelTotal : IsTotal (ℚ × Nat) (fun a b => b.1 ≤ a.1) :=
  ⟨fun a b => le_total b.1 a.1⟩

instance sortDescRelTrans : IsTrans (ℚ × Nat) (fun a b => b.1 ≤ a.1) :=
  ⟨fun _ _ _ h1 h2 => le_trans h2 h1⟩

/-- The per-person aggregation of `find_match`: with at least `top_k`
samples, the mean of the top `top_k` scores and the id of the best of those;
with fewer, the single best score and its id.  Returns `(final_score,
best_img_id)`. -/
def personFinal (topK : Nat) (scores : List (ℚ × Nat)) : ℚ × Nat :=
  let sorted := sortDesc scores
  if topK ≤ scores.length then
    let top := sorted.take topK
    ((top.map Prod.fst).sum / (top.length : ℚ), (top.headD (0, 0)).2)
  else
    ((sorted.headD (0, 0)).1, (sorted.headD (0, 0)).2)

/-- The selection loop of `find_match`: `best_score` starts at `threshold`
and a person replaces the current best only when its final score strictly
exceeds `best_score`. -/
def bestStep (test : List ℚ) (db : List DBEmbedding) (topK : Nat)
    (acc : Option (Nat × String × Option String × ℚ) × ℚ) (name : String) :
    Option (Nat × String × Option String × ℚ) × ℚ :=
  let fs := personFinal topK (personScores test db name)
  if fs.1 > acc.2 then (some (fs.2, name, nicknameOf test db name, fs.1), fs.1)
  else acc

/-- `FaceProcessor.find_match` (requires `top_k ≥ 1`; the Python code
raises `ZeroDivisionError` at `top_k = 0` on a nonempty group). -/
def find_match (test : List ℚ) (db : List DBEmbedding) (threshold : ℚ)
    (topK : Nat) : Option (Nat × String × Option String × ℚ) :=
  ((personNames test db).foldl (bestStep test db topK) (none, threshold)).1

example :
    find_match [1, 0, 0]
      [⟨1, "A", none, [1, 0, 0]⟩, ⟨2, "B", none, [0, 1, 0]⟩]
      (2/5) 3 = some (1, "A", none, 1) := by
    norm_num +decide [find_match, bestStep, personFinal, personNames,
      personScores, nicknameOf, survivors, firstOccur, sortDesc, compare_faces,
      dotProd, List.insertionSort, List.orderedInsert]

example :
    find_match [1]
      [⟨1, "A", none, [9/10]⟩, ⟨2, "A", none, [8/10]⟩, ⟨3, "A", none, [7/10]⟩,
       ⟨4, "A", none, [6/10]⟩, ⟨5, "A", none, [1/2]⟩]
      (2/5) 3 = some (1, "A", none, 4/5) := by
    norm_num +decide [find_match, bestStep, personFinal, personNames,
      personScores, nicknameOf, survivors, firstOccur, sortDesc, compare_faces,
      dotProd, List.insertionSort, List.orderedInsert]

example :
    find_match [1, 0]
      [⟨1, "A", none, [3/5, 0]⟩, ⟨2, "B", none, [100]⟩]
      (2/5) 3 = some (1, "A", none, 3/5) := by
    norm_num +decide [find_match, bestStep, personFinal, personNames,
      personScores, nicknameOf, survivors, firstOccur, sortDesc, compare_faces,
      dotProd, List.insertionSort, List.orderedInsert]

/-! ### Database + file system state (database.py)

The SQLite tables become Lean lists in rowid (insertion) order; the file
system becomes the `Finset String` of currently existing paths.  `SELECT ...
ORDER BY created_at/timestamp ASC` is modelled by a stable sort on the
timestamp, matching SQLite's scan order on equal keys. -/

/-- A row of the `persons` table. -/
structure Person where
  id : Nat
  name : String
  nickname : Option String
deriving DecidableEq

/-- A row of the `face_images` table (a TrainingSample). -/
structure FaceImage where
  id : Nat
  personId : Nat
  imagePath : String
  originalImagePath : Option String
  embedding : List ℚ
  createdAt : Nat
deriving DecidableEq

/-- A row of the `recognition_history` table. -/
structure HistoryRecord where
  id : Nat
  personId : Option Nat
  personName : String
  nickname : Option String
  score : ℚ
  imagePath : Option String
  thumbnailPath : Option String
  trainedImageId : Option Nat
  timestamp : Nat
deriving DecidableEq

/-- Database plus file-system state.  `nextFaceImageId` / `nextHistoryId`
model the AUTOINCREMENT counters; `files` is the set of existing paths. -/
structure DBState where
  persons : List Person
  faceImages : List FaceImage
  history : List HistoryRecord
  files : Finset String
  nextFaceImageId : Nat
  nextHistoryId : Nat
deriving DecidableEq

/-- `Database._safe_delete_file`: deleting a missing file (or a NULL path)
is not an error; the file simply no longer exists afterwards. -/
def safeDeleteFile (files : Finset String) : Option String → Finset String
  | some p => files.erase p
  | none => files

/-- `Database.get_face_count`: `SELECT COUNT(*) FROM face_images WHERE
person_id = ?`. -/
def get_face_count (st : DBState) (personId : Nat) : Nat :=
  (st.faceImages.filter (fun f => f.personId = personId)).length

/-- `Database.get_oldest_face_image`: `SELECT * FROM face_images WHERE
person_id = ? ORDER BY created_at ASC LIMIT 1`. -/
def get_oldest_face_image (st : DBState) (personId : Nat) : Option FaceImage :=
  (List.insertionSort (fun a b : FaceImage => a.createdAt ≤ b.createdAt)
      (st.faceImages.filter (fun f => f.personId = personId))).head?

/-- `Database.delete_face_image`: the info `SELECT` joins `persons`, so the
two training files are deleted only when the owning person row exists; the
`UPDATE recognition_history SET trained_image_id = NULL` and the row
`DELETE` always run.  (The empty-directory cleanup touches only
directories, which the model does not track.) -/
def delete_face_image (st : DBState) (imageId : Nat) : DBState :=
  let joined := st.faceImages.find?
    (fun f => f.id = imageId ∧ st.persons.any (fun p => p.id = f.personId))
  let files1 :=
    match joined with
    | some img => safeDeleteFile (safeDeleteFile st.files (some img.imagePath))
        img.originalImagePath
    | none => st.files
  { st with
    files := files1
    history := st.history.map (fun h =>
      if h.trainedImageId = some imageId then { h with trainedImageId := none }
      else h)
    faceImages := st.faceImages.filter (fun f => f.id ≠ imageId) }

/-- `Database.add_face_image`: inserts a `face_images` row with
`created_at = CURRENT_TIMESTAMP` (the `now` argument) and returns the new
rowid. -/
def add_face_image (st : DBState) (personId : Nat) (imagePath : String)
    (embedding : List ℚ) (originalImagePath : Option String) (now : Nat) :
    Nat × DBState :=
  (st.nextFaceImageId,
   { st with
     faceImages := st.faceImages ++
       [⟨st.nextFaceImageId, personId, imagePath, originalImagePath,
         embedding, now⟩]
     nextFaceImageId := st.nextFaceImageId + 1 })

/-- `f"static/detect/{person_name}/{person_name}_{timestamp}.jpg"`. -/
def detectFilePath (personName tstamp : String) : String :=
  "static/detect/" ++ personName ++ "/" ++ personName ++ "_" ++ tstamp ++ ".jpg"

/-- `f"static/original/{person_name}/{person_name}_{timestamp}.jpg"`. -/
def originalFilePath (personName tstamp : String) : String :=
  "static/original/" ++ personName ++ "/" ++ personName ++ "_" ++ tstamp ++ ".jpg"

/-- The quota-eviction prologue of `Database.auto_train_face`: if the
person is already at `max_images`, delete the single oldest training
image (when one exists). -/
def evict_if_at_quota (st : DBState) (personId maxImages : Nat) : DBState :=
  if maxImages ≤ get_face_count st personId then
    match get_oldest_face_image st personId with
    | some oldest => delete_face_image st oldest.id
    | none => st
  else st

/-- `Database.auto_train_face`.  `maxImages` is the
`max_images_per_person` setting; `now` the insertion timestamp;
`writeFails` / `copyFails` inject the two storage faults (`cv2.imwrite`
returning falsy, `shutil.copy` raising).  On a copy fault the already
written cropped file is removed again (`_safe_delete_file(face_save_path)`)
and `None` is returned. -/
def auto_train_face (st : DBState) (personId : Nat) (personName : String)
    (embedding : List ℚ) (tstamp : String) (maxImages : Nat) (now : Nat)
    (writeFails copyFails : Bool) : Option Nat × DBState :=
  let st1 := evict_if_at_quota st personId maxImages
  let facePath := detectFilePath personName tstamp
  if writeFails then (none, st1)
  else
    let st2 := { st1 with files := insert facePath st1.files }
    if copyFails then
      (none, { st2 with files := safeDeleteFile st2.files (some facePath) })
    else
      let origPath := originalFilePath personName tstamp
      let st3 := { st2 with files := insert origPath st2.files }
      let r := add_face_image st3 personId facePath embedding (some origPath) now
      (some r.1, r.2)

/-- `ORDER BY timestamp ASC` over `recognition_history`, as a stable sort. -/
def sortByTimestampAsc (l : List HistoryRecord) : List HistoryRecord :=
  List.insertionSort (fun a b : HistoryRecord => a.timestamp ≤ b.timestamp) l

/-- `Database.add_recognition_history`: insert the new record, then if the
total count exceeds `maxRecords` delete the oldest `count - maxRecords`
records (by timestamp) together with their image and thumbnail files.  The
file-deleting pass and the row `DELETE ... WHERE id IN (SELECT ...)` both
use the same `ORDER BY timestamp ASC LIMIT ?` selection over the unchanged
table. -/
def add_recognition_history (st : DBState) (personId : Option Nat)
    (personName : String) (nickname : Option String) (score : ℚ)
    (imagePath thumbnailPath : String) (trainedImageId : Option Nat)
    (maxRecords : Nat) (now : Nat) : Nat × DBState :=
  let hist1 := st.history ++
    [⟨st.nextHistoryId, personId, personName, nickname, score,
      some imagePath, some thumbnailPath, trainedImageId, now⟩]
  let count := hist1.length
  if maxRecords < count then
    let old := (sortByTimestampAsc hist1).take (count - maxRecords)
    (st.nextHistoryId,
     { st with
       history := hist1.filter
         (fun h => ¬ h.id ∈ old.map (fun r => r.id))
       files := old.foldl
         (fun fs r => safeDeleteFile (safeDeleteFile fs r.imagePath)
           r.thumbnailPath) st.files
       nextHistoryId := st.nextHistoryId + 1 })
  else
    (st.nextHistoryId,
     { st with history := hist1, nextHistoryId := st.nextHistoryId + 1 })

/-- `Database.undo_recognition`: look up the record; if it carries a
`trained_image_id`, delete that training sample's *cropped* file
(`SELECT image_path FROM face_images ...` — the stored original is not
selected and not deleted) and its row (the `ON DELETE SET NULL` foreign
key then clears other history references); then delete the record's two
media files and the record row. -/
def undo_recognition (st : DBState) (historyId : Nat) : DBState :=
  match st.history.find? (fun h => h.id = historyId) with
  | none => st
  | some record =>
    let st1 :=
      match record.trainedImageId with
      | some tid =>
        let files1 :=
          match st.faceImages.find? (fun f : FaceImage => f.id = tid) with
          | some faceImg => safeDeleteFile st.files (some faceImg.imagePath)
          | none => st.files
        { st with
          files := files1
          faceImages := st.faceImages.filter (fun f : FaceImage => f.id ≠ tid)
          history := st.history.map (fun h : HistoryRecord =>
            if h.trainedImageId = some tid then { h with trainedImageId := none }
            else h) }
      | none => st
    { st1 with
      files := safeDeleteFile (safeDeleteFile st1.files record.imagePath)
        record.thumbnailPath
      history := st1.history.filter (fun h => h.id ≠ historyId) }

/-- The `UPDATE recognition_history SET person_id = NULL,
person_name = 'Unknown', nickname = NULL, score = 0.0` applied by
`Database.delete_person` to one surviving record. -/
def toUnknown (h : HistoryRecord) : HistoryRecord :=
  { h with personId := none, personName := "Unknown", nickname := none,
           score := 0 }

/-- The `ON DELETE SET NULL` foreign-key action on
`recognition_history.trained_image_id`: when a `face_images` row with an
id in `deletedIds` is deleted, any history record referencing it loses the
reference. -/
def clearTrainedRef (deletedIds : List Nat) (h : HistoryRecord) :
    HistoryRecord :=
  if deletedIds.any (fun i => h.trainedImageId = some i) then
    { h with trainedImageId := none }
  else h

/-- `Database.delete_person`: delete every training file of the person,
rewrite the person's surviving history records to the Unknown state
(`SET person_id = NULL, person_name = 'Unknown', nickname = NULL,
score = 0.0`), then delete the person row.  With `PRAGMA foreign_keys =
ON`, the `ON DELETE CASCADE` removes the person's `face_images` rows, and
each of those deletions in turn fires the `ON DELETE SET NULL` action on
`recognition_history.trained_image_id` (`clearTrainedRef`).  (The
person-directory removal touches only directories, which the model does
not track.) -/
def delete_person (st : DBState) (personId : Nat) : DBState :=
  let imgs := st.faceImages.filter (fun f => f.personId = personId)
  { st with
    files := imgs.foldl
      (fun fs f => safeDeleteFile (safeDeleteFile fs (some f.imagePath))
        f.originalImagePath) st.files
    history := (st.history.map (fun h =>
        if h.personId = some personId then toUnknown h else h)).map
      (clearTrainedRef (imgs.map (fun f => f.id)))
    persons := st.persons.filter (fun p => p.id ≠ personId)
    faceImages := st.faceImages.filter (fun f => f.personId ≠ personId) }

/-! ### Ingestion watcher (inbox_monitor.py) -/

/-- Outcome of the orchestrator callback `process_callback(file_path)`:
either it returns normally or it raises a fault. -/
inductive CallbackOutcome
  | ok
  | fault
deriving DecidableEq

/-- `InboxHandler._is_file_complete`: the two size probes are `none` when
the file does not exist at that probe and `some size` otherwise; the check
succeeds iff both probes see the file, the sizes agree, and the size is
positive. -/
def is_file_complete (probe1 probe2 : Option Nat) : Bool :=
  match probe1 with
  | none => false
  | some initialSize =>
    match probe2 with
    | none => false
    | some finalSize => initialSize == finalSize && decide (0 < finalSize)

/-- The characters of `os.path.basename(path)` (everything after the last
`/`). -/
def basenameChars (path : String) : List Char :=
  (path.toList.reverse.takeWhile (fun c => c ≠ '/')).reverse

/-- The extension part of `os.path.splitext` on a basename: the suffix
from the last dot, unless every character before that dot is itself a dot
(so `".bashrc"` has no extension). -/
def extChars (b : List Char) : List Char :=
  let rev := b.reverse
  let pre := rev.takeWhile (fun c => c ≠ '.')
  if pre.length = rev.length then []
  else if (rev.drop (pre.length + 1)).all (fun c => c = '.') then []
  else '.' :: pre.reverse

/-- `os.path.splitext(file_path)[1].lower()`. -/
def extOf (path : String) : String :=
  String.mk ((extChars (basenameChars path)).map Char.toLower)

/-- `InboxHandler.on_created`.  The handler state is the `processing` set;
the stability probes only delay and never change the set, so they are
omitted; the callback is an abstract `CallbackOutcome`.  Returns the new
`processing` set and whether the orchestrator callback was invoked.  The
`try/except` swallows a callback fault and the `finally` discards the path
on both outcomes, which is why the translation returns normally on both
constructors of `outcome`. -/
def on_created (processing : Finset String) (isDirectory : Bool)
    (path : String) (outcome : CallbackOutcome) : Finset String × Bool :=
  if isDirectory then (processing, false)
  else if ¬ extOf path ∈ ([".jpg", ".jpeg", ".png"] : List String) then
    (processing, false)
  else if path ∈ processing then (processing, false)
  else
    let processing1 := insert path processing
    match outcome with
    | CallbackOutcome.ok => (processing1.erase path, true)
    | CallbackOutcome.fault => (processing1.erase path, true)

example : extOf "/inbox/photo.JPG" = ".jpg" := by decide
example : extOf "/inbox/notes.txt" = ".txt" := by decide
example : extOf "/inbox/.bashrc" = "" := by decide

/-! ### Repeated operations (for the quota and ledger invariants) -/

/-- The training sample inserted by the `i`-th successful enrollment of
`enrollRepeat` (ids continue from `id0`, timestamps from `t0`). -/
def enrolledSample (personId : Nat) (personName : String) (emb : List ℚ)
    (tag : Nat → String) (id0 t0 i : Nat) : FaceImage :=
  ⟨id0 + i, personId, detectFilePath personName (tag i),
   some (originalFilePath personName (tag i)), emb, t0 + i⟩

/-- `n` successive successful (fault-free) `auto_train_face` calls for one
person; the `i`-th uses filename timestamp `tag i` and database timestamp
`t0 + i`. -/
def enrollRepeat (st : DBState) (personId : Nat) (personName : String)
    (emb : List ℚ) (tag : Nat → String) (maxImages t0 : Nat) : Nat → DBState
  | 0 => st
  | n + 1 =>
    (auto_train_face
      (enrollRepeat st personId personName emb tag maxImages t0 n)
      personId personName emb (tag n) maxImages (t0 + n) false false).2

/-- The history record inserted by the `i`-th append of `appendRepeat`
(ids continue from `hid0`, timestamps from `t0`). -/
def appendedRecord (personId : Option Nat) (personName : String)
    (nickname : Option String) (score : ℚ) (lp tp : Nat → String)
    (trainedImageId : Option Nat) (hid0 t0 i : Nat) : HistoryRecord :=
  ⟨hid0 + i, personId, personName, nickname, score, some (lp i), some (tp i),
   trainedImageId, t0 + i⟩

/-- `n` successive appends through the success path of
`InboxMonitor.save_history_record`: the `i`-th append first writes its two
media files — log image `lp i` and thumbnail `tp i` — and then calls
`add_recognition_history` with ceiling `maxRecords` at timestamp
`t0 + i`. -/
def appendRepeat (st : DBState) (personId : Option Nat) (personName : String)
    (nickname : Option String) (score : ℚ) (lp tp : Nat → String)
    (trainedImageId : Option Nat) (maxRecords t0 : Nat) : Nat → DBState
  | 0 => st
  | n + 1 =>
    (add_recognition_history
      { appendRepeat st personId personName nickname score lp tp
          trainedImageId maxRecords t0 n with
        files := insert (tp n) (insert (lp n)
          (appendRepeat st personId personName nickname score lp tp
            trainedImageId maxRecords t0 n).files) }
      personId personName nickname score (lp n) (tp n) trainedImageId
      maxRecords (t0 + n)).2

/-! ### Helper lemmas -/

/-- Invariant of the selection loop of `find_match`: the running
`best_score` never drops below the threshold, and whenever a best match is
recorded its score equals the running `best_score`, which strictly exceeds
the threshold. -/
theorem findMatch_fold_inv (test : List ℚ) (db : List DBEmbedding)
    (topK : Nat) (θ : ℚ) (names : List String)
    (acc : Option (Nat × String × Option String × ℚ) × ℚ)
    (hacc : θ ≤ acc.2 ∧ ∀ r, acc.1 = some r → r.2.2.2 = acc.2 ∧ θ < acc.2) :
    θ ≤ (names.foldl (bestStep test db topK) acc).2 ∧
      ∀ r, (names.foldl (bestStep test db topK) acc).1 = some r →
        r.2.2.2 = (names.foldl (bestStep test db topK) acc).2 ∧
        θ < (names.foldl (bestStep test db topK) acc).2 := by
  induction names generalizing acc with
  | nil => simpa using hacc
  | cons n ns ih =>
    simp only [List.foldl_cons]
    apply ih
    unfold bestStep
    by_cases h : (personFinal topK (personScores test db n)).1 > acc.2
    · simp only [h, if_pos]
      refine ⟨le_of_lt (lt_of_le_of_lt hacc.1 h), ?_⟩
      intro r hr
      simp only [Option.some.injEq] at hr
      subst hr
      exact ⟨rfl, lt_of_le_of_lt hacc.1 h⟩
    · simpa [h] using hacc

/-- A path distinct from the deleted one survives `_safe_delete_file`. -/
theorem mem_safeDeleteFile (fs : Finset String) (o : Option String)
    (p : String) (hp : p ∈ fs) (hne : o ≠ some p) :
    p ∈ safeDeleteFile fs o := by
  cases o with
  | none => exact hp
  | some q =>
    refine Finset.mem_erase.mpr ⟨?_, hp⟩
    intro h
    exact hne (by rw [h])

/-- `_safe_delete_file` never adds files. -/
theorem safeDeleteFile_subset (fs : Finset String) (o : Option String) :
    safeDeleteFile fs o ⊆ fs := by
  cases o with
  | none => exact fun _ h => h
  | some q => exact Finset.erase_subset q fs

/-- A path absent before `_safe_delete_file` is absent after. -/
theorem not_mem_safeDeleteFile (fs : Finset String) (o : Option String)
    (p : String) (hp : p ∉ fs) : p ∉ safeDeleteFile fs o :=
  fun h => hp (safeDeleteFile_subset fs o h)

/-- Quota eviction only removes `face_images` rows. -/
theorem evict_faceImages_sublist (st : DBState) (personId maxImages : Nat) :
    (evict_if_at_quota st personId maxImages).faceImages.Sublist
      st.faceImages := by
  unfold evict_if_at_quota
  by_cases h : maxImages ≤ get_face_count st personId
  · simp only [h, if_pos]
    cases get_oldest_face_image st personId with
    | none => exact List.Sublist.refl _
    | some oldest => exact List.filter_sublist _
  · simp [h]

/-- Quota eviction does not touch the AUTOINCREMENT counter. -/
theorem evict_nextFaceImageId (st : DBState) (personId maxImages : Nat) :
    (evict_if_at_quota st personId maxImages).nextFaceImageId =
      st.nextFaceImageId := by
  unfold evict_if_at_quota
  by_cases h : maxImages ≤ get_face_count st personId
  · simp only [h, if_pos]
    cases get_oldest_face_image st personId with
    | none => rfl
    | some oldest => rfl
  · simp [h]

/-- The head of a list is a member. -/
theorem mem_of_head?_eq {α : Type} {l : List α} {a : α}
    (h : l.head? = some a) : a ∈ l := by
  cases l with
  | nil => cases h
  | cons x xs =>
    simp only [List.head?_cons, Option.some.injEq] at h
    subst h
    exact List.mem_cons_self x xs

/-- `get_oldest_face_image` returns a training image of the requested
person that is present in the table. -/
theorem get_oldest_mem (st : DBState) (personId : Nat) (o : FaceImage)
    (h : get_oldest_face_image st personId = some o) :
    o ∈ st.faceImages ∧ o.personId = personId := by
  unfold get_oldest_face_image at h
  have hmem2 : o ∈ st.faceImages.filter (fun f => f.personId = personId) :=
    (List.perm_insertionSort _ _).mem_iff.mp (mem_of_head?_eq h)
  have := List.mem_filter.mp hmem2
  exact ⟨this.1, by simpa using this.2⟩

/-- When the person has at least one training image, an oldest one
exists. -/
theorem get_oldest_isSome (st : DBState) (personId : Nat)
    (h : 1 ≤ get_face_count st personId) :
    ∃ o, get_oldest_face_image st personId = some o := by
  unfold get_oldest_face_image
  unfold get_face_count at h
  cases hs : List.insertionSort (fun a b : FaceImage => a.createdAt ≤ b.createdAt)
      (st.faceImages.filter (fun f => f.personId = personId)) with
  | nil =>
    exfalso
    have hlen := (List.perm_insertionSort
      (fun a b : FaceImage => a.createdAt ≤ b.createdAt)
      (st.faceImages.filter (fun f => f.personId = personId))).length_eq
    rw [hs] at hlen
    simp only [List.length_nil] at hlen
    omega
  | cons x xs => exact ⟨x, rfl⟩

/-- Removing one present row by its id from a table with no duplicate ids
shortens the table by exactly one. -/
theorem filter_ne_id_length (l : List FaceImage) (o : FaceImage)
    (ho : o ∈ l) (hnd : (l.map (fun f => f.id)).Nodup) :
    (l.filter (fun f => f.id ≠ o.id)).length = l.length - 1 := by
  induction l with
  | nil => cases ho
  | cons x xs ih =>
    simp only [List.map_cons, List.nodup_cons, List.mem_map] at hnd
    rcases List.mem_cons.mp ho with rfl | hxs
    · have hall : ∀ f ∈ xs, ¬ f.id = o.id := fun f hf he => hnd.1 ⟨f, hf, he⟩
      have heq : List.filter (fun f => decide (f.id ≠ o.id)) (o :: xs) = xs := by
        rw [List.filter_cons]
        simp only [ne_eq, not_true_eq_false, decide_not, Bool.not_true,
          Bool.false_eq_true, if_false, decide_eq_true_eq]
        exact List.filter_eq_self.mpr (fun f hf => by simp [hall f hf])
      simpa using congrArg List.length heq
    · have hxo : ¬ x.id = o.id := fun he => hnd.1 ⟨o, hxs, he.symm⟩
      have hb : decide (x.id = o.id) = false := decide_eq_false hxo
      have hpos : 0 < xs.length :=
        List.length_pos.mpr (by intro he; rw [he] at hxs; cases hxs)
      rw [List.filter_cons]
      have hih := ih hxs hnd.2
      simp only [ne_eq, decide_not] at hih ⊢
      simp [hb]
      omega

/-- A nonempty `range'` decomposed at its head. -/
theorem range'_eq_cons (s k : Nat) (hk : 1 ≤ k) :
    List.range' s k = s :: List.range' (s + 1) (k - 1) := by
  obtain ⟨m, rfl⟩ : ∃ m, k = m + 1 := ⟨k - 1, by omega⟩
  simpa using List.range'_succ s m 1

/-- `range'` with one more element at the top. -/
theorem range'_concat_one (s n : Nat) :
    List.range' s (n + 1) = List.range' s n ++ [s + n] := by
  induction n generalizing s with
  | zero => simp
  | succ n ih =>
    rw [List.range'_succ s (n + 1) 1, ih (s + 1), List.range'_succ s n 1]
    simp only [List.cons_append, List.append_assoc]
    have : s + 1 + n = s + (n + 1) := by omega
    rw [this]

/-- Every sample produced by `enrolledSample` belongs to the enrolled
person, so the per-person filter keeps all of them. -/
theorem filter_personId_enrolled (personId : Nat) (personName : String)
    (emb : List ℚ) (tag : Nat → String) (id0 t0 : Nat) (l : List Nat) :
    (l.map (enrolledSample personId personName emb tag id0 t0)).filter
        (fun f => f.personId = personId) =
      l.map (enrolledSample personId personName emb tag id0 t0) := by
  apply List.filter_eq_self.mpr
  intro f hf
  obtain ⟨i, _, rfl⟩ := List.mem_map.mp hf
  simp [enrolledSample]

/-- Samples enrolled at increasing indices have increasing creation
timestamps. -/
theorem sorted_enrolled (personId : Nat) (personName : String)
    (emb : List ℚ) (tag : Nat → String) (id0 t0 : Nat) (l : List Nat)
    (hl : l.Pairwise (fun a b => a < b)) :
    List.Sorted (fun a b : FaceImage => a.createdAt ≤ b.createdAt)
      (l.map (enrolledSample personId personName emb tag id0 t0)) := by
  rw [List.Sorted, List.pairwise_map]
  exact hl.imp (fun hij => by simp only [enrolledSample]; omega)

/-- Quota eviction leaves an empty history ledger empty. -/
theorem evict_history_nil (st : DBState) (personId maxImages : Nat)
    (h : st.history = []) :
    (evict_if_at_quota st personId maxImages).history = [] := by
  unfold evict_if_at_quota
  by_cases hc : maxImages ≤ get_face_count st personId
  · simp only [hc, if_pos]
    cases get_oldest_face_image st personId with
    | none => exact h
    | some oldest => simp [delete_face_image, h]
  · simpa [hc] using h

/-- Field-level description of the success path of `auto_train_face`. -/
theorem auto_train_success_fields (st : DBState) (personId : Nat)
    (personName : String) (emb : List ℚ) (tstamp : String)
    (maxImages now : Nat) :
    (auto_train_face st personId personName emb tstamp maxImages now
        false false).2.faceImages =
      (evict_if_at_quota st personId maxImages).faceImages ++
        [⟨(evict_if_at_quota st personId maxImages).nextFaceImageId, personId,
          detectFilePath personName tstamp,
          some (originalFilePath personName tstamp), emb, now⟩] ∧
    (auto_train_face st personId personName emb tstamp maxImages now
        false false).2.nextFaceImageId =
      (evict_if_at_quota st personId maxImages).nextFaceImageId + 1 ∧
    (auto_train_face st personId personName emb tstamp maxImages now
        false false).2.history =
      (evict_if_at_quota st personId maxImages).history := by
  refine ⟨?_, ?_, ?_⟩ <;> simp [auto_train_face, add_face_image]

/-- Closed form of `n` successful enrollments starting from an identity
with no samples: the table holds the `min n maxImages` most recent
samples, in creation order (requires `maxImages ≥ 1`). -/
theorem enrollRepeat_closed_form (persons0 : List Person)
    (files0 : Finset String) (id0 h0 personId : Nat) (personName : String)
    (emb : List ℚ) (tag : Nat → String) (maxImages t0 : Nat)
    (hM : 1 ≤ maxImages) :
    ∀ n : Nat,
      (enrollRepeat ⟨persons0, [], [], files0, id0, h0⟩ personId personName
          emb tag maxImages t0 n).faceImages =
        (List.range' (n - min n maxImages) (min n maxImages)).map
          (enrolledSample personId personName emb tag id0 t0) ∧
      (enrollRepeat ⟨persons0, [], [], files0, id0, h0⟩ personId personName
          emb tag maxImages t0 n).nextFaceImageId = id0 + n ∧
      (enrollRepeat ⟨persons0, [], [], files0, id0, h0⟩ personId personName
          emb tag maxImages t0 n).history = [] := by
  intro n
  induction n with
  | zero => simp [enrollRepeat]
  | succ n ih =>
    set stn := enrollRepeat ⟨persons0, [], [], files0, id0, h0⟩ personId
      personName emb tag maxImages t0 n with hstn
    have hstep : enrollRepeat ⟨persons0, [], [], files0, id0, h0⟩ personId
        personName emb tag maxImages t0 (n + 1) =
        (auto_train_face stn personId personName emb (tag n) maxImages
          (t0 + n) false false).2 := rfl
    have hcnt : get_face_count stn personId = min n maxImages := by
      unfold get_face_count
      rw [ih.1, filter_personId_enrolled]
      simp
    have hfields := auto_train_success_fields stn personId personName emb
      (tag n) maxImages (t0 + n)
    rcases Nat.lt_or_ge n maxImages with hlt | hge
    · have hmin : min n maxImages = n := Nat.min_eq_left (le_of_lt hlt)
      have hnoev : evict_if_at_quota stn personId maxImages = stn := by
        unfold evict_if_at_quota
        rw [if_neg]
        omega
      refine ⟨?_, ?_, ?_⟩
      · rw [hstep, hfields.1, hnoev, ih.1, ih.2.1, hmin]
        have hmin1 : min (n + 1) maxImages = n + 1 := Nat.min_eq_left hlt
        rw [hmin1]
        simp only [Nat.sub_self]
        rw [range'_concat_one 0 n, List.map_append]
        simp [enrolledSample]
      · rw [hstep, hfields.2.1, hnoev, ih.2.1]
        omega
      · rw [hstep, hfields.2.2, hnoev, ih.2.2]
    · have hmin : min n maxImages = maxImages := Nat.min_eq_right hge
      have hdecomp : List.range' (n - maxImages) maxImages =
          (n - maxImages) :: List.range' (n - maxImages + 1) (maxImages - 1) :=
        range'_eq_cons _ _ hM
      have holdest : get_oldest_face_image stn personId =
          some (enrolledSample personId personName emb tag id0 t0
            (n - maxImages)) := by
        unfold get_oldest_face_image
        rw [ih.1, filter_personId_enrolled]
        simp only [hmin]
        rw [List.Sorted.insertionSort_eq (sorted_enrolled personId personName
          emb tag id0 t0 _ (List.pairwise_lt_range' _ _)), hdecomp]
        rfl
      have hev : evict_if_at_quota stn personId maxImages =
          delete_face_image stn (id0 + (n - maxImages)) := by
        unfold evict_if_at_quota
        rw [if_pos (by omega), holdest]
        rfl
      have hdelfi : (delete_face_image stn (id0 + (n - maxImages))).faceImages =
          (List.range' (n - maxImages + 1) (maxImages - 1)).map
            (enrolledSample personId personName emb tag id0 t0) := by
        show (stn.faceImages.filter _) = _
        rw [ih.1]
        simp only [hmin]
        rw [hdecomp]
        simp only [List.map_cons, List.filter_cons]
        have hhead : (decide ((enrolledSample personId personName emb tag id0 t0
            (n - maxImages)).id ≠ id0 + (n - maxImages))) = false := by
          simp [enrolledSample]
        rw [hhead]
        simp only [Bool.false_eq_true, if_false]
        apply List.filter_eq_self.mpr
        intro f hf
        obtain ⟨i, hi, rfl⟩ := List.mem_map.mp hf
        have hib := (List.mem_range'_1.mp hi).1
        exact decide_eq_true (by simp only [enrolledSample, ne_eq]; omega)
      have hdelnext : (delete_face_image stn
          (id0 + (n - maxImages))).nextFaceImageId = stn.nextFaceImageId := rfl
      have hdelhist : (delete_face_image stn
          (id0 + (n - maxImages))).history = [] := by
        show stn.history.map _ = []
        rw [ih.2.2]
        rfl
      have hconcat : List.range' (n - maxImages + 1) (maxImages - 1) ++ [n] =
          List.range' (n - maxImages + 1) maxImages := by
        have h4 := range'_concat_one (n - maxImages + 1) (maxImages - 1)
        have h5 : maxImages - 1 + 1 = maxImages := by omega
        have h6 : n - maxImages + 1 + (maxImages - 1) = n := by omega
        rw [h5, h6] at h4
        exact h4.symm
      refine ⟨?_, ?_, ?_⟩
      · rw [hstep, hfields.1, hev, hdelfi, hdelnext, ih.2.1]
        have hmin1 : min (n + 1) maxImages = maxImages :=
          Nat.min_eq_right (by omega)
        rw [hmin1]
        have h2 : n + 1 - maxImages = n - maxImages + 1 := by omega
        rw [h2, ← hconcat, List.map_append]
        simp [enrolledSample]
      · rw [hstep, hfields.2.1, hev, hdelnext, ih.2.1]
        omega
      · rw [hstep, hfields.2.2, hev, hdelhist]

/-- The eviction file-deletion pass never adds files. -/
theorem foldl_safeDelete_subset (l : List HistoryRecord) (fs : Finset String) :
    l.foldl (fun fs r => safeDeleteFile (safeDeleteFile fs r.imagePath)
      r.thumbnailPath) fs ⊆ fs := by
  induction l generalizing fs with
  | nil => exact fun _ h => h
  | cons x xs ih =>
    intro p hp
    exact safeDeleteFile_subset _ _ (safeDeleteFile_subset _ _ (ih _ hp))

/-- Any media file of any record in the eviction pass is gone
afterwards. -/
theorem foldl_safeDelete_not_mem (l : List HistoryRecord)
    (fs : Finset String) (h : HistoryRecord) (hl : h ∈ l) (p : String)
    (hp : h.imagePath = some p ∨ h.thumbnailPath = some p) :
    p ∉ l.foldl (fun fs r => safeDeleteFile (safeDeleteFile fs r.imagePath)
      r.thumbnailPath) fs := by
  induction l generalizing fs with
  | nil => cases hl
  | cons x xs ih =>
    rcases List.mem_cons.mp hl with rfl | hxs
    · intro hmem
      have hstep := foldl_safeDelete_subset xs
        (safeDeleteFile (safeDeleteFile fs h.imagePath) h.thumbnailPath) hmem
      rcases hp with hpi | hpt
      · rw [hpi] at hstep
        exact not_mem_safeDeleteFile _ _ _ (Finset.not_mem_erase p fs) hstep
      · rw [hpt] at hstep
        exact Finset.not_mem_erase p _ hstep
    · exact ih _ hxs

/-- Filtering out the ids of a duplicate-free prefix keeps exactly the
suffix. -/
theorem filter_not_mem_ids_append (l1 l2 : List HistoryRecord)
    (hnd : ((l1 ++ l2).map (fun h => h.id)).Nodup) :
    (l1 ++ l2).filter (fun h => ¬ h.id ∈ l1.map (fun r => r.id)) = l2 := by
  rw [List.map_append, List.nodup_append] at hnd
  rw [List.filter_append]
  have h1 : l1.filter (fun h => ¬ h.id ∈ l1.map (fun r => r.id)) = [] := by
    apply List.filter_eq_nil_iff.mpr
    intro a ha
    have hmem : a.id ∈ l1.map (fun r => r.id) := List.mem_map.mpr ⟨a, ha, rfl⟩
    simp [hmem]
  have h2 : l2.filter (fun h => ¬ h.id ∈ l1.map (fun r => r.id)) = l2 := by
    apply List.filter_eq_self.mpr
    intro a ha
    have hmem : ¬ a.id ∈ l1.map (fun r => r.id) :=
      fun hin => hnd.2.2 hin (List.mem_map.mpr ⟨a, ha, rfl⟩)
    simp [hmem]
  rw [h1, h2, List.nil_append]

/-- Field-level description of one `add_recognition_history` call on a
ledger whose records are in strictly increasing timestamp order with
distinct ids: the resulting ledger is the suffix of the old ledger plus
the new record that fits under the ceiling, and exactly the evicted
prefix had its media files deleted. -/
theorem add_history_fields (st : DBState) (personId : Option Nat)
    (personName : String) (nickname : Option String) (score : ℚ)
    (imagePath thumbnailPath : String) (trainedImageId : Option Nat)
    (maxRecords now : Nat)
    (hsort : st.history.Pairwise (fun a b => a.timestamp < b.timestamp))
    (hnow : ∀ h ∈ st.history, h.timestamp < now)
    (hnd : (st.history.map (fun h => h.id)).Nodup)
    (hids : ∀ h ∈ st.history, h.id < st.nextHistoryId) :
    (add_recognition_history st personId personName nickname score imagePath
        thumbnailPath trainedImageId maxRecords now).2.history =
      (st.history ++ [(⟨st.nextHistoryId, personId, personName, nickname,
        score, some imagePath, some thumbnailPath, trainedImageId,
        now⟩ : HistoryRecord)]).drop ((st.history.length + 1) - maxRecords) ∧
    (add_recognition_history st personId personName nickname score imagePath
        thumbnailPath trainedImageId maxRecords now).2.files =
      ((st.history ++ [(⟨st.nextHistoryId, personId, personName, nickname,
        score, some imagePath, some thumbnailPath, trainedImageId,
        now⟩ : HistoryRecord)]).take ((st.history.length + 1) -
          maxRecords)).foldl
        (fun fs r => safeDeleteFile (safeDeleteFile fs r.imagePath)
          r.thumbnailPath) st.files ∧
    (add_recognition_history st personId personName nickname score imagePath
        thumbnailPath trainedImageId maxRecords now).2.nextHistoryId =
      st.nextHistoryId + 1 := by
  set newRec : HistoryRecord := ⟨st.nextHistoryId, personId, personName,
    nickname, score, some imagePath, some thumbnailPath, trainedImageId,
    now⟩ with hnew
  set hist1 := st.history ++ [newRec] with hh1
  have hlen1 : hist1.length = st.history.length + 1 := by
    simp [hh1]
  have hsort1 : hist1.Pairwise (fun a b => a.timestamp < b.timestamp) := by
    rw [hh1]
    refine List.pairwise_append.mpr ⟨hsort, List.pairwise_singleton _ _, ?_⟩
    intro a ha b hb
    simp only [List.mem_singleton] at hb
    subst hb
    exact hnow a ha
  have hsort_eq : sortByTimestampAsc hist1 = hist1 :=
    List.Sorted.insertionSort_eq (hsort1.imp le_of_lt)
  have hnd1 : (hist1.map (fun h => h.id)).Nodup := by
    rw [hh1]
    simp only [List.map_append, List.map_cons, List.map_nil]
    rw [List.nodup_append]
    refine ⟨hnd, List.nodup_singleton _, ?_⟩
    intro a ha
    simp only [List.mem_singleton]
    obtain ⟨h, hmem, rfl⟩ := List.mem_map.mp ha
    have h1 := hids h hmem
    have h2 : newRec.id = st.nextHistoryId := rfl
    omega
  by_cases hc : maxRecords < hist1.length
  · have hhist : (add_recognition_history st personId personName nickname
        score imagePath thumbnailPath trainedImageId maxRecords
          now).2.history =
        hist1.filter (fun h => ¬ h.id ∈
          ((sortByTimestampAsc hist1).take
            (hist1.length - maxRecords)).map (fun r => r.id)) := by
      simp only [add_recognition_history, ← hnew, ← hh1, if_pos hc]
    have hfiles : (add_recognition_history st personId personName nickname
        score imagePath thumbnailPath trainedImageId maxRecords
          now).2.files =
        ((sortByTimestampAsc hist1).take (hist1.length - maxRecords)).foldl
          (fun fs r => safeDeleteFile (safeDeleteFile fs r.imagePath)
            r.thumbnailPath) st.files := by
      simp only [add_recognition_history, ← hnew, ← hh1, if_pos hc]
    have hnext : (add_recognition_history st personId personName nickname
        score imagePath thumbnailPath trainedImageId maxRecords
          now).2.nextHistoryId = st.nextHistoryId + 1 := by
      simp only [add_recognition_history, ← hnew, ← hh1, if_pos hc]
    refine ⟨?_, ?_, hnext⟩
    · rw [hhist, hsort_eq]
      have hkey := filter_not_mem_ids_append
        (hist1.take (hist1.length - maxRecords))
        (hist1.drop (hist1.length - maxRecords))
        (by rw [List.take_append_drop]; exact hnd1)
      rw [List.take_append_drop] at hkey
      rw [hlen1] at hkey
      rw [hlen1, hkey]
    · rw [hfiles, hsort_eq, hlen1]
  · have hz : st.history.length + 1 - maxRecords = 0 := by
      rw [← hlen1]
      omega
    have hhist : (add_recognition_history st personId personName nickname
        score imagePath thumbnailPath trainedImageId maxRecords
          now).2.history = hist1 := by
      simp only [add_recognition_history, ← hnew, ← hh1, if_neg hc]
    have hfiles : (add_recognition_history st personId personName nickname
        score imagePath thumbnailPath trainedImageId maxRecords
          now).2.files = st.files := by
      simp only [add_recognition_history, ← hnew, ← hh1, if_neg hc]
    have hnext : (add_recognition_history st personId personName nickname
        score imagePath thumbnailPath trainedImageId maxRecords
          now).2.nextHistoryId = st.nextHistoryId + 1 := by
      simp only [add_recognition_history, ← hnew, ← hh1, if_neg hc]
    refine ⟨?_, ?_, hnext⟩
    · rw [hz, List.drop_zero, hhist]
    · rw [hz, List.take_zero, List.foldl_nil, hfiles]

/-- Appended records at increasing indices have strictly increasing
timestamps. -/
theorem pairwise_appended_lt (personId : Option Nat) (personName : String)
    (nickname : Option String) (score : ℚ) (lp tp : Nat → String)
    (trainedImageId : Option Nat) (hid0 t0 : Nat) (l : List Nat)
    (hl : l.Pairwise (fun a b => a < b)) :
    (l.map (appendedRecord personId personName nickname score lp tp
      trainedImageId hid0 t0)).Pairwise
      (fun a b => a.timestamp < b.timestamp) := by
  rw [List.pairwise_map]
  exact hl.imp (fun hij => by simp only [appendedRecord]; omega)

/-- Appended records at distinct indices have distinct ids. -/
theorem nodup_appended_ids (personId : Option Nat) (personName : String)
    (nickname : Option String) (score : ℚ) (lp tp : Nat → String)
    (trainedImageId : Option Nat) (hid0 t0 : Nat) (l : List Nat)
    (hl : l.Pairwise (fun a b => a < b)) :
    ((l.map (appendedRecord personId personName nickname score lp tp
      trainedImageId hid0 t0)).map (fun h => h.id)).Nodup := by
  rw [List.map_map, List.Nodup, List.pairwise_map]
  exact hl.imp (fun hij => by simp only [Function.comp, appendedRecord]; omega)

/-- Closed form of `n` appends through `appendRepeat` starting from an
empty ledger: the ledger holds the `min n maxRecords` most recent records
and the disk holds exactly the starting files plus the media of the
retained records. -/
theorem appendRepeat_closed_form (persons0 : List Person)
    (fi0 : List FaceImage) (files0 : Finset String) (nid0 h0 : Nat)
    (personId : Option Nat) (personName : String) (nickname : Option String)
    (score : ℚ) (lp tp : Nat → String) (trainedImageId : Option Nat)
    (maxRecords t0 N : Nat)
    (hlplp : ∀ i, i < N → ∀ j, j < N → i ≠ j → lp i ≠ lp j)
    (htptp : ∀ i, i < N → ∀ j, j < N → i ≠ j → tp i ≠ tp j)
    (hlptp : ∀ i, i < N → ∀ j, j < N → lp i ≠ tp j)
    (hlp0 : ∀ i, i < N → lp i ∉ files0)
    (htp0 : ∀ i, i < N → tp i ∉ files0) :
    ∀ n, n ≤ N →
      (appendRepeat ⟨persons0, fi0, [], files0, nid0, h0⟩ personId personName
          nickname score lp tp trainedImageId maxRecords t0 n).history =
        (List.range' (n - min n maxRecords) (min n maxRecords)).map
          (appendedRecord personId personName nickname score lp tp
            trainedImageId h0 t0) ∧
      (appendRepeat ⟨persons0, fi0, [], files0, nid0, h0⟩ personId personName
          nickname score lp tp trainedImageId maxRecords t0 n).nextHistoryId =
        h0 + n ∧
      (∀ p, p ∈ (appendRepeat ⟨persons0, fi0, [], files0, nid0, h0⟩ personId
          personName nickname score lp tp trainedImageId maxRecords t0
          n).files ↔
        (p ∈ files0 ∨ ∃ i, n - min n maxRecords ≤ i ∧ i < n ∧
          (p = lp i ∨ p = tp i))) := by
  intro n
  induction n with
  | zero =>
    intro _
    refine ⟨by simp [appendRepeat], by simp [appendRepeat], ?_⟩
    intro p
    simp [appendRepeat]
  | succ n ih =>
    intro hn1
    have ihh := ih (by omega)
    set stn := appendRepeat ⟨persons0, fi0, [], files0, nid0, h0⟩ personId
      personName nickname score lp tp trainedImageId maxRecords t0 n with hstn
    set k := min n maxRecords with hk
    have hkn : k ≤ n := Nat.min_le_left n maxRecords
    have hrec : ∀ i, appendedRecord personId personName nickname score lp tp
        trainedImageId h0 t0 i =
        ⟨h0 + i, personId, personName, nickname, score, some (lp i),
         some (tp i), trainedImageId, t0 + i⟩ := fun i => rfl
    have hsort' : stn.history.Pairwise
        (fun a b => a.timestamp < b.timestamp) := by
      rw [ihh.1]
      exact pairwise_appended_lt _ _ _ _ _ _ _ _ _ _
        (List.pairwise_lt_range' _ _)
    have hnow' : ∀ h ∈ stn.history, h.timestamp < t0 + n := by
      intro h hmem
      rw [ihh.1] at hmem
      obtain ⟨i, hi, rfl⟩ := List.mem_map.mp hmem
      have hb := List.mem_range'_1.mp hi
      simp only [appendedRecord]
      omega
    have hnd' : (stn.history.map (fun h => h.id)).Nodup := by
      rw [ihh.1]
      exact nodup_appended_ids _ _ _ _ _ _ _ _ _ _
        (List.pairwise_lt_range' _ _)
    have hids' : ∀ h ∈ stn.history, h.id < h0 + n := by
      intro h hmem
      rw [ihh.1] at hmem
      obtain ⟨i, hi, rfl⟩ := List.mem_map.mp hmem
      have hb := List.mem_range'_1.mp hi
      simp only [appendedRecord]
      omega
    have hlen : stn.history.length = k := by
      rw [ihh.1]
      simp
    have hstep : appendRepeat ⟨persons0, fi0, [], files0, nid0, h0⟩ personId
        personName nickname score lp tp trainedImageId maxRecords t0 (n + 1) =
        (add_recognition_history
          { stn with files := insert (tp n) (insert (lp n) stn.files) }
          personId personName nickname score (lp n) (tp n) trainedImageId
          maxRecords (t0 + n)).2 := rfl
    have hadd := add_history_fields
      { stn with files := insert (tp n) (insert (lp n) stn.files) }
      personId personName nickname score (lp n) (tp n) trainedImageId
      maxRecords (t0 + n) hsort' hnow' hnd' (by rw [ihh.2.1]; exact hids')
    dsimp only at hadd
    rw [ihh.2.1] at hstep hadd
    rw [hlen] at hadd
    have hone : (⟨h0 + n, personId, personName, nickname, score,
        some (lp n), some (tp n), trainedImageId,
        t0 + n⟩ : HistoryRecord) =
        appendedRecord personId personName nickname score lp tp
          trainedImageId h0 t0 n := rfl
    rw [hone] at hadd
    have hh1 : stn.history ++ [appendedRecord personId personName nickname
        score lp tp trainedImageId h0 t0 n] =
        (List.range' (n - k) (k + 1)).map
          (appendedRecord personId personName nickname score lp tp
            trainedImageId h0 t0) := by
      rw [ihh.1, range'_concat_one]
      have : n - k + k = n := by omega
      rw [this, List.map_append]
      rfl
    rw [hh1] at hadd
    rcases Nat.lt_or_ge n maxRecords with hlt | hge
    · have hkn' : k = n := Nat.min_eq_left (le_of_lt hlt)
      have hz : k + 1 - maxRecords = 0 := by omega
      rw [hz] at hadd
      have hmin1 : min (n + 1) maxRecords = n + 1 := Nat.min_eq_left hlt
      refine ⟨?_, ?_, ?_⟩
      · rw [hstep, hadd.1, List.drop_zero, hmin1, hkn']
        simp
      · rw [hstep, hadd.2.2]
        omega
      · intro p
        rw [hstep, hadd.2.1, List.take_zero, List.foldl_nil]
        simp only [Finset.mem_insert]
        rw [hmin1]
        simp only [Nat.sub_self]
        constructor
        · rintro (rfl | rfl | hmem)
          · exact Or.inr ⟨n, by omega, by omega, Or.inr rfl⟩
          · exact Or.inr ⟨n, by omega, by omega, Or.inl rfl⟩
          · rcases (ihh.2.2 p).mp hmem with h0m | ⟨i, hi1, hi2, hm⟩
            · exact Or.inl h0m
            · exact Or.inr ⟨i, by omega, by omega, hm⟩
        · rintro (h0m | ⟨i, hi1, hi2, hm⟩)
          · exact Or.inr (Or.inr ((ihh.2.2 p).mpr (Or.inl h0m)))
          · by_cases hin : i = n
            · subst hin
              rcases hm with rfl | rfl
              · exact Or.inr (Or.inl rfl)
              · exact Or.inl rfl
            · exact Or.inr (Or.inr ((ihh.2.2 p).mpr
                (Or.inr ⟨i, by omega, by omega, hm⟩)))
    · have hkC : k = maxRecords := Nat.min_eq_right hge
      have ho : k + 1 - maxRecords = 1 := by omega
      rw [ho] at hadd
      have hdec : List.range' (n - k) (k + 1) =
          (n - k) :: List.range' (n - k + 1) k := range'_eq_cons _ _ (by omega)
      have hmin1 : min (n + 1) maxRecords = maxRecords :=
        Nat.min_eq_right (by omega)
      have hidx : n + 1 - maxRecords = n - k + 1 := by omega
      refine ⟨?_, ?_, ?_⟩
      · rw [hstep, hadd.1, hdec, List.map_cons, List.drop_one, List.tail_cons,
          hmin1, hidx, hkC]
      · rw [hstep, hadd.2.2]
        omega
      · intro p
        have htake1 : (((n - k) :: List.range' (n - k + 1) k).map
            (appendedRecord personId personName nickname score lp tp
              trainedImageId h0 t0)).take 1 =
            [appendedRecord personId personName nickname score lp tp
              trainedImageId h0 t0 (n - k)] := rfl
        rw [hstep, hadd.2.1, hdec, htake1]
        simp only [List.foldl_cons, List.foldl_nil, appendedRecord,
          safeDeleteFile]
        rw [hmin1, hidx]
        simp only [Finset.mem_erase, Finset.mem_insert]
        constructor
        · rintro ⟨hne_tp, hne_lp, (rfl | rfl | hmem)⟩
          · -- p = tp n
            refine Or.inr ⟨n, ?_, by omega, Or.inr rfl⟩
            by_cases hC : maxRecords = 0
            · exfalso
              apply hne_tp
              rw [hkC, hC]
              simp
            · omega
          · -- p = lp n
            refine Or.inr ⟨n, ?_, by omega, Or.inl rfl⟩
            by_cases hC : maxRecords = 0
            · exfalso
              apply hne_lp
              rw [hkC, hC]
              simp
            · omega
          · rcases (ihh.2.2 p).mp hmem with h0m | ⟨i, hi1, hi2, hm⟩
            · exact Or.inl h0m
            · have hik : i ≠ n - k := by
                intro he
                rcases hm with rfl | rfl
                · exact hne_lp (by rw [he])
                · exact hne_tp (by rw [he])
              exact Or.inr ⟨i, by omega, by omega, hm⟩
        · rintro (h0m | ⟨i, hi1, hi2, hm⟩)
          · have hnN : n - k < N := by omega
            refine ⟨?_, ?_, Or.inr (Or.inr ((ihh.2.2 p).mpr (Or.inl h0m)))⟩
            · intro he
              exact htp0 (n - k) hnN (he ▸ h0m)
            · intro he
              exact hlp0 (n - k) hnN (he ▸ h0m)
          · have hC1 : 1 ≤ maxRecords := by omega
            have hiN : i < N := by omega
            have hnkN : n - k < N := by omega
            have hink : i ≠ n - k := by omega
            by_cases hin : i = n
            · rw [hin] at hm
              have hnN : n < N := by omega
              rcases hm with rfl | rfl
              · exact ⟨fun he => hlptp n hnN (n - k) hnkN he,
                  fun he => hlplp n hnN (n - k) hnkN (by omega) he,
                  Or.inr (Or.inl rfl)⟩
              · exact ⟨fun he => htptp n hnN (n - k) hnkN (by omega) he,
                  fun he => hlptp (n - k) hnkN n hnN he.symm,
                  Or.inl rfl⟩
            · have hmem : p ∈ stn.files := (ihh.2.2 p).mpr
                (Or.inr ⟨i, by omega, by omega, hm⟩)
              rcases hm with rfl | rfl
              · exact ⟨fun he => hlptp i hiN (n - k) hnkN he,
                  fun he => hlplp i hiN (n - k) hnkN hink he,
                  Or.inr (Or.inr hmem)⟩
              · exact ⟨fun he => htptp i hiN (n - k) hnkN hink he,
                  fun he => hlptp (n - k) hnkN i hiN he.symm,
                  Or.inr (Or.inr hmem)⟩

/-- Gallery rows of the wrong dimension disappear from the survivor
list. -/
theorem survivors_skip_mismatch (test : List ℚ) (l1 l2 : List DBEmbedding)
    (e : DBEmbedding) (he : e.embedding.length ≠ test.length) :
    survivors test (l1 ++ e :: l2) = survivors test (l1 ++ l2) := by
  simp [survivors, List.filter_append, List.filter_cons, he]

/-- `find_match` factors through the survivor list. -/
theorem find_match_eq_of_survivors_eq (test : List ℚ) (θ : ℚ) (k : Nat)
    (db1 db2 : List DBEmbedding)
    (h : survivors test db1 = survivors test db2) :
    find_match test db1 θ k = find_match test db2 θ k := by
  unfold find_match bestStep personNames personScores nicknameOf
  rw [h]

/-- The head of a nonempty descending-sorted list of scored samples is a
member and has the maximal score. -/
theorem head_spec_of_sorted (l : List (ℚ × Nat))
    (hs : List.Sorted (fun a b : ℚ × Nat => b.1 ≤ a.1) l) (hne : l ≠ []) :
    l.headD (0, 0) ∈ l ∧ ∀ b ∈ l, b.1 ≤ (l.headD (0, 0)).1 := by
  cases l with
  | nil => exact absurd rfl hne
  | cons x xs =>
    refine ⟨List.mem_cons_self _ _, ?_⟩
    intro b hb
    rcases List.mem_cons.mp hb with rfl | hbx
    · exact le_refl _
    · exact List.rel_of_sorted_cons hs b hbx

/-- `sortDesc` is a permutation of its input. -/
theorem sortDesc_perm (l : List (ℚ × Nat)) : List.Perm (sortDesc l) l :=
  List.perm_insertionSort _ l

/-- The foreign-key action never changes a record's id. -/
theorem clearTrainedRef_id (ids : List Nat) (h : HistoryRecord) :
    (clearTrainedRef ids h).id = h.id := by
  unfold clearTrainedRef
  split <;> rfl

/-- The foreign-key action never changes a record's person reference. -/
theorem clearTrainedRef_personId (ids : List Nat) (h : HistoryRecord) :
    (clearTrainedRef ids h).personId = h.personId := by
  unfold clearTrainedRef
  split <;> rfl

/-- A record referencing none of the deleted samples is untouched by the
foreign-key action. -/
theorem clearTrainedRef_eq_self (ids : List Nat) (h : HistoryRecord)
    (hno : ∀ i ∈ ids, h.trainedImageId ≠ some i) :
    clearTrainedRef ids h = h := by
  unfold clearTrainedRef
  rw [if_neg]
  simp only [List.any_eq_true, decide_eq_true_eq, not_exists, not_and]
  exact hno

/-- A record referencing a deleted sample loses the reference. -/
theorem clearTrainedRef_clears (ids : List Nat) (h : HistoryRecord)
    (i : Nat) (hi : i ∈ ids) (ht : h.trainedImageId = some i) :
    clearTrainedRef ids h = { h with trainedImageId := none } := by
  unfold clearTrainedRef
  rw [if_pos]
  simp only [List.any_eq_true, decide_eq_true_eq]
  exact ⟨i, hi, ht⟩

/-- `sortDesc` sorts descending by score. -/
theorem sortDesc_sorted (l : List (ℚ × Nat)) :
    List.Sorted (fun a b : ℚ × Nat => b.1 ≤ a.1) (sortDesc l) :=
  List.sorted_insertionSort _ l

/-! ### Claim theorems -/

/-- C1: the per-identity final score of `find_match` is determined only by
gallery entries whose embedding dimension matches the probe's — inserting
a mismatched entry anywhere leaves the result unchanged; for an identity
with at least `topK` surviving samples the final score is the arithmetic
mean of the `topK` highest similarity scores (a size-`topK`
sub-collection of its scores, each at least every unselected score) and
the representative sample id is the highest-scoring of those `topK`; for
an identity with fewer than `topK` samples the final score is its single
maximum similarity, achieved by the representative sample. -/
theorem C1_hybrid_topk_scoring :
    (∀ (test : List ℚ) (θ : ℚ) (k : Nat) (l1 l2 : List DBEmbedding)
       (e : DBEmbedding),
       e.embedding.length ≠ test.length →
       find_match test (l1 ++ e :: l2) θ k = find_match test (l1 ++ l2) θ k) ∧
    (∀ (k : Nat) (scores : List (ℚ × Nat)), 1 ≤ k → k ≤ scores.length →
       ∃ sel : List (ℚ × Nat), sel.Subperm scores ∧ sel.length = k ∧
         (∀ b ∈ ((scores.map Prod.fst : Multiset ℚ) -
             (sel.map Prod.fst : Multiset ℚ)), ∀ a ∈ sel, b ≤ a.1) ∧
         (personFinal k scores).1 = (sel.map Prod.fst).sum / (k : ℚ) ∧
         ∃ a ∈ sel, a.2 = (personFinal k scores).2 ∧ ∀ b ∈ sel, b.1 ≤ a.1) ∧
    (∀ (k : Nat) (scores : List (ℚ × Nat)), scores ≠ [] →
       scores.length < k →
       (personFinal k scores).1 ∈ scores.map Prod.fst ∧
       (∀ s ∈ scores.map Prod.fst, s ≤ (personFinal k scores).1) ∧
       ∃ p ∈ scores, p.2 = (personFinal k scores).2 ∧
         p.1 = (personFinal k scores).1) := by
  refine ⟨?_, ?_, ?_⟩
  · intro test θ k l1 l2 e he
    exact find_match_eq_of_survivors_eq test θ k _ _
      (survivors_skip_mismatch test l1 l2 e he)
  · intro k scores hk1 hkl
    have hperm := sortDesc_perm scores
    have hsorted := sortDesc_sorted scores
    have hlt : ((sortDesc scores).take k).length = k := by
      rw [List.length_take, hperm.length_eq]
      omega
    have hbranch : personFinal k scores =
        (((((sortDesc scores).take k).map Prod.fst).sum /
          ((((sortDesc scores).take k).length : Nat) : ℚ)),
         (((sortDesc scores).take k).headD (0, 0)).2) := by
      simp only [personFinal, if_pos hkl]
    have htopsorted : List.Sorted (fun a b : ℚ × Nat => b.1 ≤ a.1)
        ((sortDesc scores).take k) :=
      List.Pairwise.sublist (List.take_sublist k _) hsorted
    have htopne : (sortDesc scores).take k ≠ [] := by
      intro h
      rw [h] at hlt
      simp at hlt
      omega
    have hhead := head_spec_of_sorted _ htopsorted htopne
    refine ⟨(sortDesc scores).take k,
      ((List.take_sublist k _).subperm).trans hperm.subperm, hlt, ?_, ?_, ?_⟩
    · intro b hb a ha
      have hsplit : (sortDesc scores).take k ++ (sortDesc scores).drop k =
          sortDesc scores := List.take_append_drop k _
      have hms : ((scores.map Prod.fst : Multiset ℚ)) =
          ((((sortDesc scores).take k).map Prod.fst : List ℚ) : Multiset ℚ) +
          ((((sortDesc scores).drop k).map Prod.fst : List ℚ) : Multiset ℚ) := by
        rw [Multiset.coe_add, Multiset.coe_eq_coe, ← List.map_append,
          hsplit]
        exact (hperm.map Prod.fst).symm
      rw [hms, add_tsub_cancel_left] at hb
      obtain ⟨q, hq, rfl⟩ := List.mem_map.mp (Multiset.mem_coe.mp hb)
      have hcross := (List.pairwise_append.mp
        (by rw [hsplit]; exact hsorted)).2.2
      exact hcross a ha q hq
    · rw [hbranch, hlt]
    · exact ⟨((sortDesc scores).take k).headD (0, 0), hhead.1,
        by rw [hbranch], hhead.2⟩
  · intro k scores hne hlen
    have hperm := sortDesc_perm scores
    have hsorted := sortDesc_sorted scores
    have hsne : sortDesc scores ≠ [] := by
      intro h
      have hl := hperm.length_eq
      rw [h] at hl
      simp only [List.length_nil] at hl
      exact hne (List.length_eq_zero.mp hl.symm)
    have hhead := head_spec_of_sorted _ hsorted hsne
    have hbranch : personFinal k scores =
        (((sortDesc scores).headD (0, 0)).1,
         ((sortDesc scores).headD (0, 0)).2) := by
      simp only [personFinal, if_neg (by omega : ¬ k ≤ scores.length)]
    have hmem : (sortDesc scores).headD (0, 0) ∈ scores :=
      hperm.mem_iff.mp hhead.1
    refine ⟨?_, ?_, ?_⟩
    · rw [hbranch]
      exact List.mem_map.mpr ⟨_, hmem, rfl⟩
    · intro s hs
      obtain ⟨p, hp, rfl⟩ := List.mem_map.mp hs
      rw [hbranch]
      exact hhead.2 p (hperm.mem_iff.mpr hp)
    · exact ⟨(sortDesc scores).headD (0, 0), hmem, by rw [hbranch],
        by rw [hbranch]⟩


/-- Witness for C1: a dimension-1 entry with maximal raw score inserted
into a dimension-2 probe's gallery is ignored; the five-sample identity at
`topK = 3` gets a three-element top selection; a one-sample identity at
`topK = 3` gets its single maximum. -/
theorem C1_hybrid_topk_scoring_witness :
    (find_match [1, 0]
        ([⟨1, "A", none, [3/5, 0]⟩] ++ ⟨2, "B", none, [100]⟩ ::
          [⟨3, "C", none, [1/2, 0]⟩]) (2/5) 3 =
      find_match [1, 0]
        ([⟨1, "A", none, [3/5, 0]⟩] ++ [⟨3, "C", none, [1/2, 0]⟩])
        (2/5) 3) ∧
    (∃ sel : List (ℚ × Nat),
      sel.Subperm [(9/10, 1), (8/10, 2), (7/10, 3), (6/10, 4), (1/2, 5)] ∧
      sel.length = 3 ∧
      (∀ b ∈ ((([(9/10, 1), (8/10, 2), (7/10, 3), (6/10, 4), (1/2, 5)] :
            List (ℚ × Nat)).map Prod.fst : Multiset ℚ) -
          (sel.map Prod.fst : Multiset ℚ)), ∀ a ∈ sel, b ≤ a.1) ∧
      (personFinal 3
          [(9/10, 1), (8/10, 2), (7/10, 3), (6/10, 4), (1/2, 5)]).1 =
        (sel.map Prod.fst).sum / ((3 : Nat) : ℚ) ∧
      ∃ a ∈ sel, a.2 = (personFinal 3
          [(9/10, 1), (8/10, 2), (7/10, 3), (6/10, 4), (1/2, 5)]).2 ∧
        ∀ b ∈ sel, b.1 ≤ a.1) ∧
    ((personFinal 3 [((1 : ℚ), 7)]).1 ∈
        ([((1 : ℚ), 7)] : List (ℚ × Nat)).map Prod.fst ∧
      (∀ s ∈ ([((1 : ℚ), 7)] : List (ℚ × Nat)).map Prod.fst,
        s ≤ (personFinal 3 [((1 : ℚ), 7)]).1) ∧
      ∃ p ∈ ([((1 : ℚ), 7)] : List (ℚ × Nat)),
        p.2 = (personFinal 3 [((1 : ℚ), 7)]).2 ∧
        p.1 = (personFinal 3 [((1 : ℚ), 7)]).1) :=
  ⟨C1_hybrid_topk_scoring.1 [1, 0] (2/5) 3 [⟨1, "A", none, [3/5, 0]⟩]
      [⟨3, "C", none, [1/2, 0]⟩] ⟨2, "B", none, [100]⟩ (by decide),
   C1_hybrid_topk_scoring.2.1 3
      [(9/10, 1), (8/10, 2), (7/10, 3), (6/10, 4), (1/2, 5)] (by decide)
      (by decide),
   C1_hybrid_topk_scoring.2.2 3 [((1 : ℚ), 7)] (by decide) (by decide)⟩

/-- C2: `find_match` either returns no match, or returns a
`(sampleId, name, nickname, score)` tuple whose score strictly exceeds the
threshold; it never returns a result whose score is ≤ the threshold.
(`topK ≥ 1` keeps the embedding inside the domain where the Python code
terminates normally.) -/
theorem C2_match_score_exceeds_threshold :
    ∀ (test : List ℚ) (db : List DBEmbedding) (θ : ℚ) (topK : Nat)
      (r : Nat × String × Option String × ℚ),
      1 ≤ topK → find_match test db θ topK = some r → θ < r.2.2.2 := by
  intro test db θ topK r _ hr
  have h := findMatch_fold_inv test db topK θ (personNames test db)
    ((none : Option (Nat × String × Option String × ℚ)), θ)
    ⟨le_refl θ, by intro r h; cases h⟩
  have h2 := h.2 r hr
  exact h2.1 ▸ h2.2

/-- Witness for C2 on the spec's end-to-end scenario: probe `[1,0,0]`
against `{A : [1,0,0], B : [0,1,0]}` with threshold `0.4` returns a score
(namely `1.0`) strictly above the threshold. -/
theorem C2_match_score_exceeds_threshold_witness : (2/5 : ℚ) < 1 :=
  C2_match_score_exceeds_threshold [1, 0, 0]
    [⟨1, "A", none, [1, 0, 0]⟩, ⟨2, "B", none, [0, 1, 0]⟩]
    (2/5) 3 (1, "A", none, 1) (by norm_num)
    (by norm_num +decide [find_match, bestStep, personFinal, personNames,
      personScores, nicknameOf, survivors, firstOccur, sortDesc, compare_faces,
      dotProd, List.insertionSort, List.orderedInsert])

/-- C5: a handled file-creation event ends with the path removed from the
in-flight `processing` set on every exit path: the result of `on_created`
does not depend on whether the callback returned or raised (the fault is
caught and the `finally` runs either way), the handled path is not in the
resulting set, and a later re-creation of the same filename is processed
again (the callback is invoked a second time). -/
theorem C5_inflight_cleared_on_every_exit :
    ∀ (processing : Finset String) (path : String) (outcome : CallbackOutcome),
      on_created processing false path outcome =
        on_created processing false path CallbackOutcome.ok ∧
      ((on_created processing false path outcome).2 = true →
        path ∉ (on_created processing false path outcome).1 ∧
        (on_created (on_created processing false path outcome).1 false path
            CallbackOutcome.ok).2 = true) := by
  intro processing path outcome
  by_cases hext : extOf path ∈ ([".jpg", ".jpeg", ".png"] : List String)
  · by_cases hmem : path ∈ processing
    · refine ⟨by cases outcome <;> rfl, ?_⟩
      intro h
      simp [on_created, hext, hmem] at h
    · refine ⟨by cases outcome <;> rfl, ?_⟩
      intro _
      have hres : (on_created processing false path outcome).1 =
          (insert path processing).erase path := by
        cases outcome <;> simp [on_created, hext, hmem]
      refine ⟨by rw [hres]; exact Finset.not_mem_erase path _, ?_⟩
      rw [hres]
      simp [on_created, hext, Finset.not_mem_erase]
  · refine ⟨by cases outcome <;> rfl, ?_⟩
    intro h
    simp [on_created, hext] at h

/-- Witness for C5: a fresh `photo.jpg` event whose callback faults still
clears the in-flight set, and a re-created `photo.jpg` is processed again. -/
theorem C5_inflight_cleared_on_every_exit_witness :
    "photo.jpg" ∉
        (on_created ∅ false "photo.jpg" CallbackOutcome.fault).1 ∧
      (on_created (on_created ∅ false "photo.jpg" CallbackOutcome.fault).1
          false "photo.jpg" CallbackOutcome.ok).2 = true :=
  (C5_inflight_cleared_on_every_exit ∅ "photo.jpg" CallbackOutcome.fault).2
    (by decide)

/-- C6: the stability check returns true iff the file exists at both size
probes, the size is unchanged between them, and the size is strictly
positive; in particular a size change between the probes, and a zero-byte
file, are both reported unstable. -/
theorem C6_stability_check_iff :
    ∀ probe1 probe2 : Option Nat,
      (is_file_complete probe1 probe2 = true ↔
        ∃ s1 s2, probe1 = some s1 ∧ probe2 = some s2 ∧ s1 = s2 ∧ 0 < s2) ∧
      (∀ s1 s2 : Nat, s1 ≠ s2 →
        is_file_complete (some s1) (some s2) = false) ∧
      is_file_complete (some 0) (some 0) = false := by
  intro probe1 probe2
  refine ⟨?_, ?_, by decide⟩
  · cases probe1 with
    | none => simp [is_file_complete]
    | some s1 =>
      cases probe2 with
      | none => simp [is_file_complete]
      | some s2 =>
        simp only [is_file_complete, Bool.and_eq_true, beq_iff_eq,
          decide_eq_true_eq, Option.some.injEq]
        constructor
        · rintro ⟨h1, h2⟩
          exact ⟨s1, s2, rfl, rfl, h1, h2⟩
        · rintro ⟨t1, t2, h1, h2, h3, h4⟩
          cases h1; cases h2; exact ⟨h3, h4⟩
  · intro s1 s2 hne
    simp [is_file_complete, hne]

/-- Witness for C6: probes `3` then `5` (size changed) are reported
unstable. -/
theorem C6_stability_check_iff_witness :
    is_file_complete (some 3) (some 5) = false :=
  (C6_stability_check_iff (some 3) (some 5)).2.1 3 5 (by decide)

/-- C9 counterexample: deleting person 1 rewrites the surviving history
record's denormalized fields to `'Unknown'` / `NULL` / `0.0` instead of
leaving name and nickname unchanged, refuting the claim as stated.  The
record itself does survive. -/
theorem C9_denormalized_fields_counterexample :
    ((delete_person
        ⟨[⟨1, "alice", some "Ally"⟩], [],
          [⟨7, some 1, "alice", some "Ally", 1, some "log.jpg",
            some "thumb.jpg", none, 5⟩], ∅, 1, 8⟩ 1).history.map
        (fun h => (h.personName, h.nickname)) = [("Unknown", none)]) ∧
      ([(⟨7, some 1, "alice", some "Ally", 1, some "log.jpg",
          some "thumb.jpg", none, 5⟩ : HistoryRecord)].map
        (fun h => (h.personName, h.nickname)) = [("alice", some "Ally")]) := by
  constructor
  · simp [delete_person, toUnknown, clearTrainedRef]
  · rfl

/-- C9 amended: deleting an identity never deletes its history records
(count and ids are preserved); a surviving record that neither belongs to
the identity nor references one of its training samples is untouched; a
record of the deleted identity degrades to the Unknown state (person
reference `NULL`, `person_name = 'Unknown'`, `nickname = NULL`,
`score = 0.0`) — its denormalized fields do *not* survive unchanged — and,
because the cascade-deletion of the identity's `face_images` rows fires
the `ON DELETE SET NULL` foreign-key action, any surviving record's
`trained_image_id` reference to one of the deleted identity's samples is
also set to `NULL`. -/
theorem C9_history_survives_identity_deletion :
    ∀ (st : DBState) (personId : Nat),
      (delete_person st personId).history.length = st.history.length ∧
      (delete_person st personId).history.map (fun h => h.id) =
        st.history.map (fun h => h.id) ∧
      (∀ h ∈ st.history, h.personId ≠ some personId →
        (∀ f ∈ st.faceImages, f.personId = personId →
          h.trainedImageId ≠ some f.id) →
        h ∈ (delete_person st personId).history) ∧
      (∀ h ∈ st.history, h.personId = some personId →
        (∀ f ∈ st.faceImages, f.personId = personId →
          h.trainedImageId ≠ some f.id) →
        toUnknown h ∈ (delete_person st personId).history) ∧
      (∀ h ∈ st.history, h.personId = some personId →
        ∀ f ∈ st.faceImages, f.personId = personId →
          h.trainedImageId = some f.id →
        { toUnknown h with trainedImageId := none } ∈
          (delete_person st personId).history) ∧
      (∀ h ∈ st.history, h.personId ≠ some personId →
        ∀ f ∈ st.faceImages, f.personId = personId →
          h.trainedImageId = some f.id →
        ({ h with trainedImageId := none } : HistoryRecord) ∈
          (delete_person st personId).history) ∧
      (∀ h ∈ (delete_person st personId).history,
        h.personId ≠ some personId) := by
  intro st personId
  have hmm : (delete_person st personId).history =
      (st.history.map (fun h =>
        if h.personId = some personId then toUnknown h else h)).map
      (clearTrainedRef ((st.faceImages.filter
        (fun f => f.personId = personId)).map (fun f => f.id))) := rfl
  refine ⟨?_, ?_, ?_, ?_, ?_, ?_, ?_⟩
  · rw [hmm]
    simp
  · rw [hmm, List.map_map, List.map_map]
    apply List.map_congr_left
    intro h _
    simp only [Function.comp]
    rw [clearTrainedRef_id]
    by_cases hp : h.personId = some personId <;> simp [hp, toUnknown]
  · intro h hmem hp hno
    rw [hmm, List.map_map]
    refine List.mem_map.mpr ⟨h, hmem, ?_⟩
    show clearTrainedRef _ (if h.personId = some personId then toUnknown h
      else h) = h
    rw [if_neg hp]
    apply clearTrainedRef_eq_self
    intro i hi
    obtain ⟨f, hf, rfl⟩ := List.mem_map.mp hi
    have hff := List.mem_filter.mp hf
    exact hno f hff.1 (by simpa using hff.2)
  · intro h hmem hp hno
    rw [hmm, List.map_map]
    refine List.mem_map.mpr ⟨h, hmem, ?_⟩
    show clearTrainedRef _ (if h.personId = some personId then toUnknown h
      else h) = toUnknown h
    rw [if_pos hp]
    apply clearTrainedRef_eq_self
    intro i hi
    obtain ⟨f, hf, rfl⟩ := List.mem_map.mp hi
    have hff := List.mem_filter.mp hf
    exact hno f hff.1 (by simpa using hff.2)
  · intro h hmem hp f hf hpf ht
    rw [hmm, List.map_map]
    refine List.mem_map.mpr ⟨h, hmem, ?_⟩
    show clearTrainedRef _ (if h.personId = some personId then toUnknown h
      else h) = { toUnknown h with trainedImageId := none }
    rw [if_pos hp]
    exact clearTrainedRef_clears _ (toUnknown h) f.id
      (List.mem_map.mpr ⟨f, List.mem_filter.mpr ⟨hf, by simp [hpf]⟩, rfl⟩) ht
  · intro h hmem hp f hf hpf ht
    rw [hmm, List.map_map]
    refine List.mem_map.mpr ⟨h, hmem, ?_⟩
    show clearTrainedRef _ (if h.personId = some personId then toUnknown h
      else h) = { h with trainedImageId := none }
    rw [if_neg hp]
    exact clearTrainedRef_clears _ h f.id
      (List.mem_map.mpr ⟨f, List.mem_filter.mpr ⟨hf, by simp [hpf]⟩, rfl⟩) ht
  · intro h hmem
    rw [hmm, List.map_map] at hmem
    obtain ⟨h0, _, rfl⟩ := List.mem_map.mp hmem
    show (clearTrainedRef _ (if h0.personId = some personId then toUnknown h0
      else h0)).personId ≠ some personId
    rw [clearTrainedRef_personId]
    by_cases hp : h0.personId = some personId
    · rw [if_pos hp]
      simp [toUnknown]
    · rw [if_neg hp]
      exact hp

/-- Witness for C9's theorem: deleting the identity turns its one history
record, which back-references the identity's training sample 4, into the
Unknown record with the sample reference set to `NULL`. -/
theorem C9_history_survives_identity_deletion_witness :
    { toUnknown ⟨7, some 1, "alice", some "Ally", 1, some "log.jpg",
        some "thumb.jpg", some 4, 5⟩ with trainedImageId := none } ∈
      (delete_person
        ⟨[⟨1, "alice", some "Ally"⟩],
         [⟨4, 1, "c.jpg", some "o.jpg", [1], 3⟩],
         [⟨7, some 1, "alice", some "Ally", 1, some "log.jpg",
           some "thumb.jpg", some 4, 5⟩], ∅, 5, 8⟩ 1).history :=
  (C9_history_survives_identity_deletion
      ⟨[⟨1, "alice", some "Ally"⟩],
       [⟨4, 1, "c.jpg", some "o.jpg", [1], 3⟩],
       [⟨7, some 1, "alice", some "Ally", 1, some "log.jpg",
         some "thumb.jpg", some 4, 5⟩], ∅, 5, 8⟩ 1).2.2.2.2.1
    ⟨7, some 1, "alice", some "Ally", 1, some "log.jpg", some "thumb.jpg",
      some 4, 5⟩ (by simp) rfl
    ⟨4, 1, "c.jpg", some "o.jpg", [1], 3⟩ (by simp) rfl rfl

/-- C7: when the copy of the original image fails after the cropped face
file was written, `auto_train_face` removes the already-written cropped
file again, inserts no TrainingSample row (the AUTOINCREMENT counter is
untouched, no row references the new cropped path, and the table only ever
shrank), and reports failure. -/
theorem C7_failed_copy_rolls_back_cropped_file :
    ∀ (st : DBState) (personId : Nat) (personName : String)
      (embedding : List ℚ) (tstamp : String) (maxImages now : Nat),
      (∀ f ∈ st.faceImages, f.imagePath ≠ detectFilePath personName tstamp) →
      (auto_train_face st personId personName embedding tstamp maxImages now
          false true).1 = none ∧
      detectFilePath personName tstamp ∉
        (auto_train_face st personId personName embedding tstamp maxImages now
          false true).2.files ∧
      (∀ f ∈ (auto_train_face st personId personName embedding tstamp maxImages
          now false true).2.faceImages,
        f.imagePath ≠ detectFilePath personName tstamp) ∧
      (auto_train_face st personId personName embedding tstamp maxImages now
          false true).2.nextFaceImageId = st.nextFaceImageId ∧
      (auto_train_face st personId personName embedding tstamp maxImages now
          false true).2.faceImages.Sublist st.faceImages := by
  intro st personId personName embedding tstamp maxImages now hfresh
  have h1 : (auto_train_face st personId personName embedding tstamp maxImages
      now false true).1 = none := by
    simp [auto_train_face]
  have hfiles : (auto_train_face st personId personName embedding tstamp
      maxImages now false true).2.files =
      (insert (detectFilePath personName tstamp)
        (evict_if_at_quota st personId maxImages).files).erase
        (detectFilePath personName tstamp) := by
    simp [auto_train_face, safeDeleteFile]
  have hfi : (auto_train_face st personId personName embedding tstamp
      maxImages now false true).2.faceImages =
      (evict_if_at_quota st personId maxImages).faceImages := by
    simp [auto_train_face]
  have hnext : (auto_train_face st personId personName embedding tstamp
      maxImages now false true).2.nextFaceImageId =
      (evict_if_at_quota st personId maxImages).nextFaceImageId := by
    simp [auto_train_face]
  refine ⟨h1, ?_, ?_, ?_, ?_⟩
  · rw [hfiles]
    exact Finset.not_mem_erase _ _
  · intro f hf
    rw [hfi] at hf
    exact hfresh f ((evict_faceImages_sublist st personId maxImages).mem hf)
  · rw [hnext]
    exact evict_nextFaceImageId st personId maxImages
  · rw [hfi]
    exact evict_faceImages_sublist st personId maxImages

/-- Witness for C7: enrolling "A" into an empty gallery with a failing
original-image copy reports failure and leaves no cropped file behind. -/
theorem C7_failed_copy_rolls_back_cropped_file_witness :
    (auto_train_face ⟨[⟨1, "A", none⟩], [], [], ∅, 1, 1⟩ 1 "A" [1] "t" 10 5
        false true).1 = none ∧
      detectFilePath "A" "t" ∉
        (auto_train_face ⟨[⟨1, "A", none⟩], [], [], ∅, 1, 1⟩ 1 "A" [1] "t" 10 5
          false true).2.files :=
  ⟨(C7_failed_copy_rolls_back_cropped_file ⟨[⟨1, "A", none⟩], [], [], ∅, 1, 1⟩
      1 "A" [1] "t" 10 5 (by simp)).1,
   (C7_failed_copy_rolls_back_cropped_file ⟨[⟨1, "A", none⟩], [], [], ∅, 1, 1⟩
      1 "A" [1] "t" 10 5 (by simp)).2.1⟩

/-- C10: auto-train is not atomic across its eviction step: with the
identity at quota, a subsequent cropped-image write fault or original-copy
fault makes `auto_train_face` return failure without inserting a new
sample, yet the evicted oldest sample is not restored — the identity ends
the failed call with one fewer sample than before. -/
theorem C10_failed_enrollment_loses_evicted_sample :
    ∀ (st : DBState) (personId : Nat) (personName : String)
      (embedding : List ℚ) (tstamp : String) (maxImages now : Nat)
      (writeFails copyFails : Bool),
      (st.faceImages.map (fun f => f.id)).Nodup →
      1 ≤ maxImages → maxImages ≤ get_face_count st personId →
      (writeFails = true ∨ copyFails = true) →
      (auto_train_face st personId personName embedding tstamp maxImages now
          writeFails copyFails).1 = none ∧
      get_face_count (auto_train_face st personId personName embedding tstamp
          maxImages now writeFails copyFails).2 personId =
        get_face_count st personId - 1 := by
  intro st personId personName embedding tstamp maxImages now wf cf hnd hM
    hcount hwc
  obtain ⟨o, ho⟩ := get_oldest_isSome st personId (le_trans hM hcount)
  have hom := get_oldest_mem st personId o ho
  have hev : evict_if_at_quota st personId maxImages =
      delete_face_image st o.id := by
    unfold evict_if_at_quota
    rw [if_pos hcount, ho]
  have homem : o ∈ st.faceImages.filter (fun f => f.personId = personId) :=
    List.mem_filter.mpr ⟨hom.1, by simp [hom.2]⟩
  have hndp : ((st.faceImages.filter
      (fun f => f.personId = personId)).map (fun f => f.id)).Nodup :=
    hnd.sublist (List.Sublist.map _ (List.filter_sublist _))
  have hcnt : get_face_count (delete_face_image st o.id) personId =
      get_face_count st personId - 1 := by
    unfold get_face_count delete_face_image
    simp only [List.filter_comm]
    exact filter_ne_id_length _ o homem hndp
  cases wf with
  | true =>
    have hres : auto_train_face st personId personName embedding tstamp
        maxImages now true cf = (none, delete_face_image st o.id) := by
      simp [auto_train_face, hev]
    rw [hres]
    exact ⟨rfl, hcnt⟩
  | false =>
    have hcf : cf = true := by
      rcases hwc with h | h
      · cases h
      · exact h
    subst hcf
    have h1 : (auto_train_face st personId personName embedding tstamp
        maxImages now false true).1 = none := by
      simp [auto_train_face]
    have hfi : (auto_train_face st personId personName embedding tstamp
        maxImages now false true).2.faceImages =
        (delete_face_image st o.id).faceImages := by
      simp [auto_train_face, hev]
    refine ⟨h1, ?_⟩
    unfold get_face_count at hcnt ⊢
    rw [hfi]
    exact hcnt

/-- Witness for C10: "A" is at quota 1 with one sample; a failing
original-copy enrollment returns failure and leaves "A" with zero
samples. -/
theorem C10_failed_enrollment_loses_evicted_sample_witness :
    (auto_train_face
        ⟨[⟨1, "A", none⟩], [⟨5, 1, "c.jpg", some "o.jpg", [1], 10⟩], [],
          {"c.jpg", "o.jpg"}, 6, 1⟩ 1 "A" [1] "t" 1 20 false true).1 = none ∧
      get_face_count (auto_train_face
        ⟨[⟨1, "A", none⟩], [⟨5, 1, "c.jpg", some "o.jpg", [1], 10⟩], [],
          {"c.jpg", "o.jpg"}, 6, 1⟩ 1 "A" [1] "t" 1 20 false true).2 1 =
        get_face_count
          ⟨[⟨1, "A", none⟩], [⟨5, 1, "c.jpg", some "o.jpg", [1], 10⟩], [],
            {"c.jpg", "o.jpg"}, 6, 1⟩ 1 - 1 :=
  C10_failed_enrollment_loses_evicted_sample
    ⟨[⟨1, "A", none⟩], [⟨5, 1, "c.jpg", some "o.jpg", [1], 10⟩], [],
      {"c.jpg", "o.jpg"}, 6, 1⟩ 1 "A" [1] "t" 1 20 false true
    (by decide) (by decide) (by decide) (Or.inr rfl)

/-- C8 counterexample: undoing record 7, which back-references training
sample 5, deletes the sample's cropped file `crop.jpg` and its row, but
leaves the sample's stored original image `orig.jpg` on disk —
`undo_recognition` selects and deletes only `image_path`, so the claim
that both stored files are removed is false. -/
theorem C8_undo_keeps_original_file_counterexample :
    "orig.jpg" ∈
      (undo_recognition
        ⟨[⟨1, "A", none⟩], [⟨5, 1, "crop.jpg", some "orig.jpg", [1], 10⟩],
          [⟨7, some 1, "A", none, 1, some "log.jpg", some "thumb.jpg",
            some 5, 20⟩],
          {"crop.jpg", "orig.jpg", "log.jpg", "thumb.jpg"}, 6, 8⟩ 7).files ∧
      "crop.jpg" ∉
        (undo_recognition
          ⟨[⟨1, "A", none⟩], [⟨5, 1, "crop.jpg", some "orig.jpg", [1], 10⟩],
            [⟨7, some 1, "A", none, 1, some "log.jpg", some "thumb.jpg",
              some 5, 20⟩],
            {"crop.jpg", "orig.jpg", "log.jpg", "thumb.jpg"}, 6, 8⟩ 7).files ∧
      (undo_recognition
        ⟨[⟨1, "A", none⟩], [⟨5, 1, "crop.jpg", some "orig.jpg", [1], 10⟩],
          [⟨7, some 1, "A", none, 1, some "log.jpg", some "thumb.jpg",
            some 5, 20⟩],
          {"crop.jpg", "orig.jpg", "log.jpg", "thumb.jpg"}, 6, 8⟩ 7).faceImages =
        [] := by decide

/-- C8 amended: undoing a history record deletes the record's own image
and thumbnail files and its row, and, when it carries a
`trained_image_id`, also deletes that sample's row and the sample's
*cropped* image file — but the sample's stored original image file is left
on disk (it is never selected for deletion). -/
theorem C8_undo_deletes_record_and_sample :
    ∀ (st : DBState) (historyId : Nat) (record : HistoryRecord),
      st.history.find? (fun h => h.id = historyId) = some record →
      (∀ h ∈ (undo_recognition st historyId).history, h.id ≠ historyId) ∧
      (∀ p, record.imagePath = some p →
        p ∉ (undo_recognition st historyId).files) ∧
      (∀ p, record.thumbnailPath = some p →
        p ∉ (undo_recognition st historyId).files) ∧
      (∀ tid, record.trainedImageId = some tid →
        (∀ f ∈ (undo_recognition st historyId).faceImages, f.id ≠ tid) ∧
        (∀ fi, st.faceImages.find? (fun f : FaceImage => f.id = tid) = some fi →
          fi.imagePath ∉ (undo_recognition st historyId).files ∧
          (∀ op, fi.originalImagePath = some op → op ∈ st.files →
            op ≠ fi.imagePath → record.imagePath ≠ some op →
            record.thumbnailPath ≠ some op →
            op ∈ (undo_recognition st historyId).files))) := by
  intro st historyId record hfind
  cases htid : record.trainedImageId with
  | none =>
    have hhist : (undo_recognition st historyId).history =
        st.history.filter (fun h => h.id ≠ historyId) := by
      simp [undo_recognition, hfind, htid]
    have hfiles : (undo_recognition st historyId).files =
        safeDeleteFile (safeDeleteFile st.files record.imagePath)
          record.thumbnailPath := by
      simp [undo_recognition, hfind, htid]
    refine ⟨?_, ?_, ?_, ?_⟩
    · intro h hm
      rw [hhist] at hm
      simpa using (List.mem_filter.mp hm).2
    · intro p hp
      rw [hfiles, hp]
      exact not_mem_safeDeleteFile _ _ _ (Finset.not_mem_erase p _)
    · intro p hp
      rw [hfiles, hp]
      exact Finset.not_mem_erase p _
    · intro tid h
      exact Option.noConfusion h
  | some tid =>
    cases hfi : st.faceImages.find? (fun f : FaceImage => f.id = tid) with
    | none =>
      have hhist : (undo_recognition st historyId).history =
          (st.history.map (fun h : HistoryRecord =>
            if h.trainedImageId = some tid then { h with trainedImageId := none }
            else h)).filter (fun h => h.id ≠ historyId) := by
        simp [undo_recognition, hfind, htid, hfi]
      have hfiles : (undo_recognition st historyId).files =
          safeDeleteFile (safeDeleteFile st.files record.imagePath)
            record.thumbnailPath := by
        simp [undo_recognition, hfind, htid, hfi]
      have hface : (undo_recognition st historyId).faceImages =
          st.faceImages.filter (fun f : FaceImage => f.id ≠ tid) := by
        simp [undo_recognition, hfind, htid, hfi]
      refine ⟨?_, ?_, ?_, ?_⟩
      · intro h hm
        rw [hhist] at hm
        simpa using (List.mem_filter.mp hm).2
      · intro p hp
        rw [hfiles, hp]
        exact not_mem_safeDeleteFile _ _ _ (Finset.not_mem_erase p _)
      · intro p hp
        rw [hfiles, hp]
        exact Finset.not_mem_erase p _
      · intro tid2 h2
        injection h2 with h2e
        subst h2e
        refine ⟨?_, ?_⟩
        · intro f hf
          rw [hface] at hf
          simpa using (List.mem_filter.mp hf).2
        · intro fi hfi2
          rw [hfi] at hfi2
          cases hfi2
    | some faceImg =>
      have hhist : (undo_recognition st historyId).history =
          (st.history.map (fun h : HistoryRecord =>
            if h.trainedImageId = some tid then { h with trainedImageId := none }
            else h)).filter (fun h => h.id ≠ historyId) := by
        simp [undo_recognition, hfind, htid, hfi]
      have hfiles : (undo_recognition st historyId).files =
          safeDeleteFile (safeDeleteFile
            (st.files.erase faceImg.imagePath) record.imagePath)
            record.thumbnailPath := by
        simp [undo_recognition, hfind, htid, hfi, safeDeleteFile]
      have hface : (undo_recognition st historyId).faceImages =
          st.faceImages.filter (fun f : FaceImage => f.id ≠ tid) := by
        simp [undo_recognition, hfind, htid, hfi]
      refine ⟨?_, ?_, ?_, ?_⟩
      · intro h hm
        rw [hhist] at hm
        simpa using (List.mem_filter.mp hm).2
      · intro p hp
        rw [hfiles, hp]
        exact not_mem_safeDeleteFile _ _ _ (Finset.not_mem_erase p _)
      · intro p hp
        rw [hfiles, hp]
        exact Finset.not_mem_erase p _
      · intro tid2 h2
        injection h2 with h2e
        subst h2e
        refine ⟨?_, ?_⟩
        · intro f hf
          rw [hface] at hf
          simpa using (List.mem_filter.mp hf).2
        · intro fi hfi2
          rw [hfi] at hfi2
          cases hfi2
          refine ⟨?_, ?_⟩
          · rw [hfiles]
            exact not_mem_safeDeleteFile _ _ _ (not_mem_safeDeleteFile _ _ _
              (Finset.not_mem_erase _ _))
          · intro op hop hopmem hopne hrecimg hrecthumb
            rw [hfiles]
            refine mem_safeDeleteFile _ _ _ (mem_safeDeleteFile _ _ _ ?_
              (fun h => hrecimg h)) (fun h => hrecthumb h)
            exact Finset.mem_erase.mpr ⟨hopne, hopmem⟩

/-- Witness for C8's theorem: a concrete undo with a back-referenced
sample removes the sample's cropped file while the stored original
survives. -/
theorem C8_undo_deletes_record_and_sample_witness :
    "crop2.jpg" ∉
      (undo_recognition
        ⟨[⟨1, "B", none⟩], [⟨5, 1, "crop2.jpg", some "orig2.jpg", [1], 10⟩],
          [⟨9, some 1, "B", none, 1, some "log2.jpg", some "thumb2.jpg",
            some 5, 20⟩],
          {"crop2.jpg", "orig2.jpg", "log2.jpg", "thumb2.jpg"}, 6, 10⟩ 9).files ∧
      "orig2.jpg" ∈
        (undo_recognition
          ⟨[⟨1, "B", none⟩], [⟨5, 1, "crop2.jpg", some "orig2.jpg", [1], 10⟩],
            [⟨9, some 1, "B", none, 1, some "log2.jpg", some "thumb2.jpg",
              some 5, 20⟩],
            {"crop2.jpg", "orig2.jpg", "log2.jpg", "thumb2.jpg"}, 6, 10⟩ 9).files :=
  ⟨(((C8_undo_deletes_record_and_sample
        ⟨[⟨1, "B", none⟩], [⟨5, 1, "crop2.jpg", some "orig2.jpg", [1], 10⟩],
          [⟨9, some 1, "B", none, 1, some "log2.jpg", some "thumb2.jpg",
            some 5, 20⟩],
          {"crop2.jpg", "orig2.jpg", "log2.jpg", "thumb2.jpg"}, 6, 10⟩ 9
        ⟨9, some 1, "B", none, 1, some "log2.jpg", some "thumb2.jpg",
          some 5, 20⟩ (by decide)).2.2.2 5 rfl).2
      ⟨5, 1, "crop2.jpg", some "orig2.jpg", [1], 10⟩ (by decide)).1,
   (((C8_undo_deletes_record_and_sample
        ⟨[⟨1, "B", none⟩], [⟨5, 1, "crop2.jpg", some "orig2.jpg", [1], 10⟩],
          [⟨9, some 1, "B", none, 1, some "log2.jpg", some "thumb2.jpg",
            some 5, 20⟩],
          {"crop2.jpg", "orig2.jpg", "log2.jpg", "thumb2.jpg"}, 6, 10⟩ 9
        ⟨9, some 1, "B", none, 1, some "log2.jpg", some "thumb2.jpg",
          some 5, 20⟩ (by decide)).2.2.2 5 rfl).2
      ⟨5, 1, "crop2.jpg", some "orig2.jpg", [1], 10⟩ (by decide)).2
     "orig2.jpg" rfl (by decide) (by decide) (by decide) (by decide)⟩

/-- C3 counterexample: with configured maximum `max = 0`, one successful
enrollment (`N = 1 > 0 = M`) leaves one sample, not `M = 0` — eviction
finds no oldest sample to delete on an empty gallery and the new sample is
still inserted, so the claim fails as stated for `M = 0`. -/
theorem C3_quota_counterexample_max_zero :
    (enrollRepeat ⟨[⟨1, "A", none⟩], [], [], ∅, 1, 1⟩ 1 "A" [1]
        (fun n => String.mk (List.replicate n 'x')) 0 0 1).faceImages.length ≠
      0 := by decide

/-- C3 amended (restricted to `max ≥ 1`, which the counterexample forces):
starting from an identity with no samples, after `N > max` successful
enrollments with strictly increasing creation timestamps exactly `max`
samples remain and they are the `max` most-recently-created ones (creation
timestamps `t0 + (N - max) .. t0 + N - 1`); each at-quota enrollment
deleted the single oldest sample before inserting the new one, which is
what the closed form expresses. -/
theorem C3_quota_fifo_eviction :
    ∀ (persons0 : List Person) (files0 : Finset String)
      (id0 h0 personId : Nat) (personName : String) (emb : List ℚ)
      (tag : Nat → String) (maxImages t0 N : Nat),
      1 ≤ maxImages → maxImages < N →
      (enrollRepeat ⟨persons0, [], [], files0, id0, h0⟩ personId personName
          emb tag maxImages t0 N).faceImages =
        (List.range' (N - maxImages) maxImages).map
          (enrolledSample personId personName emb tag id0 t0) ∧
      get_face_count (enrollRepeat ⟨persons0, [], [], files0, id0, h0⟩
          personId personName emb tag maxImages t0 N) personId = maxImages ∧
      (enrollRepeat ⟨persons0, [], [], files0, id0, h0⟩ personId personName
          emb tag maxImages t0 N).faceImages.map (fun f => f.createdAt) =
        (List.range' (N - maxImages) maxImages).map (fun i => t0 + i) := by
  intro persons0 files0 id0 h0 personId personName emb tag maxImages t0 N hM hN
  have h := enrollRepeat_closed_form persons0 files0 id0 h0 personId
    personName emb tag maxImages t0 hM N
  have hmin : min N maxImages = maxImages := Nat.min_eq_right (by omega)
  rw [hmin] at h
  refine ⟨h.1, ?_, ?_⟩
  · unfold get_face_count
    rw [h.1, filter_personId_enrolled]
    simp
  · rw [h.1, List.map_map]
    apply List.map_congr_left
    intro i _
    simp [enrolledSample]

/-- C4: every append enforces the record ceiling.  Part one (single call,
on a ledger with strictly increasing timestamps and distinct ids): after
`add_recognition_history` with ceiling `maxRecords` the count is at most
`maxRecords`; the retained rows are exactly the suffix that fits — the
oldest `count - maxRecords` rows by timestamp were deleted — and every
deleted row's image and thumbnail file no longer exists.  Part two: after
`N > C` appends (each first writing its two media files) starting from an
empty ledger, exactly `C` records remain, they are the `C` most recent
(timestamps `t0 + (N - C) .. t0 + N - 1`), and the media files of all
evicted records no longer exist on disk. -/
theorem C4_history_ledger_ceiling :
    (∀ (st : DBState) (personId : Option Nat) (personName : String)
       (nickname : Option String) (score : ℚ)
       (imagePath thumbnailPath : String) (trainedImageId : Option Nat)
       (maxRecords now : Nat),
       st.history.Pairwise (fun a b => a.timestamp < b.timestamp) →
       (∀ h ∈ st.history, h.timestamp < now) →
       (st.history.map (fun h => h.id)).Nodup →
       (∀ h ∈ st.history, h.id < st.nextHistoryId) →
       (add_recognition_history st personId personName nickname score
           imagePath thumbnailPath trainedImageId maxRecords
           now).2.history.length ≤ maxRecords ∧
       (add_recognition_history st personId personName nickname score
           imagePath thumbnailPath trainedImageId maxRecords now).2.history =
         (st.history ++ [(⟨st.nextHistoryId, personId, personName, nickname,
           score, some imagePath, some thumbnailPath, trainedImageId,
           now⟩ : HistoryRecord)]).drop
           ((st.history.length + 1) - maxRecords) ∧
       (∀ h ∈ (st.history ++ [(⟨st.nextHistoryId, personId, personName,
           nickname, score, some imagePath, some thumbnailPath,
           trainedImageId, now⟩ : HistoryRecord)]).take
           ((st.history.length + 1) - maxRecords),
         ∀ p, h.imagePath = some p ∨ h.thumbnailPath = some p →
           p ∉ (add_recognition_history st personId personName nickname score
             imagePath thumbnailPath trainedImageId maxRecords
             now).2.files)) ∧
    (∀ (persons0 : List Person) (fi0 : List FaceImage)
       (files0 : Finset String) (nid0 h0 : Nat) (personId : Option Nat)
       (personName : String) (nickname : Option String) (score : ℚ)
       (lp tp : Nat → String) (trainedImageId : Option Nat)
       (maxRecords t0 N : Nat),
       (∀ i, i < N → ∀ j, j < N → i ≠ j → lp i ≠ lp j) →
       (∀ i, i < N → ∀ j, j < N → i ≠ j → tp i ≠ tp j) →
       (∀ i, i < N → ∀ j, j < N → lp i ≠ tp j) →
       (∀ i, i < N → lp i ∉ files0) →
       (∀ i, i < N → tp i ∉ files0) →
       maxRecords < N →
       (appendRepeat ⟨persons0, fi0, [], files0, nid0, h0⟩ personId
           personName nickname score lp tp trainedImageId maxRecords t0
           N).history =
         (List.range' (N - maxRecords) maxRecords).map
           (appendedRecord personId personName nickname score lp tp
             trainedImageId h0 t0) ∧
       (appendRepeat ⟨persons0, fi0, [], files0, nid0, h0⟩ personId
           personName nickname score lp tp trainedImageId maxRecords t0
           N).history.length = maxRecords ∧
       (appendRepeat ⟨persons0, fi0, [], files0, nid0, h0⟩ personId
           personName nickname score lp tp trainedImageId maxRecords t0
           N).history.map (fun h => h.timestamp) =
         (List.range' (N - maxRecords) maxRecords).map (fun i => t0 + i) ∧
       (∀ i, i < N - maxRecords →
         lp i ∉ (appendRepeat ⟨persons0, fi0, [], files0, nid0, h0⟩ personId
           personName nickname score lp tp trainedImageId maxRecords t0
           N).files ∧
         tp i ∉ (appendRepeat ⟨persons0, fi0, [], files0, nid0, h0⟩ personId
           personName nickname score lp tp trainedImageId maxRecords t0
           N).files)) := by
  constructor
  · intro st personId personName nickname score imagePath thumbnailPath
      trainedImageId maxRecords now hsort hnow hnd hids
    have hadd := add_history_fields st personId personName nickname score
      imagePath thumbnailPath trainedImageId maxRecords now hsort hnow hnd
      hids
    refine ⟨?_, hadd.1, ?_⟩
    · rw [hadd.1, List.length_drop]
      simp only [List.length_append, List.length_singleton]
      omega
    · intro h hmem p hp
      rw [hadd.2.1]
      exact foldl_safeDelete_not_mem _ _ h hmem p hp
  · intro persons0 fi0 files0 nid0 h0 personId personName nickname score
      lp tp trainedImageId maxRecords t0 N hlplp htptp hlptp hlp0 htp0 hCN
    have hcf := appendRepeat_closed_form persons0 fi0 files0 nid0 h0 personId
      personName nickname score lp tp trainedImageId maxRecords t0 N
      hlplp htptp hlptp hlp0 htp0 N (le_refl N)
    have hmin : min N maxRecords = maxRecords := Nat.min_eq_right (by omega)
    rw [hmin] at hcf
    refine ⟨hcf.1, ?_, ?_, ?_⟩
    · rw [hcf.1]
      simp
    · rw [hcf.1, List.map_map]
      apply List.map_congr_left
      intro i _
      simp [appendedRecord]
    · intro i hi
      constructor
      · intro hmem
        rcases (hcf.2.2 (lp i)).mp hmem with h0m | ⟨j, hj1, hj2, hm⟩
        · exact hlp0 i (by omega) h0m
        · rcases hm with he | he
          · exact hlplp i (by omega) j (by omega) (by omega) he
          · exact hlptp i (by omega) j (by omega) he
      · intro hmem
        rcases (hcf.2.2 (tp i)).mp hmem with h0m | ⟨j, hj1, hj2, hm⟩
        · exact htp0 i (by omega) h0m
        · rcases hm with he | he
          · exact hlptp j (by omega) i (by omega) he.symm
          · exact htptp i (by omega) j (by omega) (by omega) he

/-- Witness for C4: ceiling 1, two appends with distinct media names —
one record remains and the first append's media files are gone. -/
theorem C4_history_ledger_ceiling_witness :
    (appendRepeat ⟨[], [], [], ∅, 1, 1⟩ none "Unknown" none 0
        (fun i => if i = 0 then "log0.jpg" else "log1.jpg")
        (fun i => if i = 0 then "thumb0.jpg" else "thumb1.jpg") none 1 0
        2).history.length = 1 ∧
      (fun i => if i = 0 then "log0.jpg" else "log1.jpg") 0 ∉
        (appendRepeat ⟨[], [], [], ∅, 1, 1⟩ none "Unknown" none 0
          (fun i => if i = 0 then "log0.jpg" else "log1.jpg")
          (fun i => if i = 0 then "thumb0.jpg" else "thumb1.jpg") none 1 0
          2).files :=
  ⟨(C4_history_ledger_ceiling.2 [] [] ∅ 1 1 none "Unknown" none 0
      (fun i => if i = 0 then "log0.jpg" else "log1.jpg")
      (fun i => if i = 0 then "thumb0.jpg" else "thumb1.jpg") none 1 0 2
      (by decide) (by decide) (by decide) (by decide) (by decide)
      (by decide)).2.1,
   ((C4_history_ledger_ceiling.2 [] [] ∅ 1 1 none "Unknown" none 0
      (fun i => if i = 0 then "log0.jpg" else "log1.jpg")
      (fun i => if i = 0 then "thumb0.jpg" else "thumb1.jpg") none 1 0 2
      (by decide) (by decide) (by decide) (by decide) (by decide)
      (by decide)).2.2.2 0 (by decide)).1⟩

/-- Witness for C3: with quota 1, after 2 enrollments exactly one sample
remains. -/
theorem C3_quota_fifo_eviction_witness :
    get_face_count (enrollRepeat ⟨[⟨1, "A", none⟩], [], [], ∅, 1, 1⟩ 1 "A"
        [1] (fun n => String.mk (List.replicate n 'x')) 1 0 2) 1 = 1 :=
  (C3_quota_fifo_eviction [⟨1, "A", none⟩] ∅ 1 1 1 "A" [1]
      (fun n => String.mk (List.replicate n 'x')) 1 0 2 (by decide)
      (by decide)).2.1

end FaceInsight
